import Mathlib

/-!
Verification of the SID assignment engine of the pyang sid plugin.

The development shallowly embeds the consistency, reconciliation and
allocation engine of the plugin: items and their statuses, the
reconciliation pass (collect_module_items / merge_item), the free-id
generator (gen_sids) and the allocator (assign_sid), the range validators
(validate_overlapping_ranges, validate_sid), and the document wire layer
(strip_wrapper, validate_key_and_value, normalize_key_names,
preprocess_content and its helpers).  Python machine integers are
arbitrary-precision, so numeric values are embedded as Int; items and
documents become explicit values, and the engine's mutation of the
in-memory document becomes explicit state passing.
-/

/-- Integers of the half-open interval from lo (included) to hi (excluded),
in ascending order.  Used to describe the ids swept by the generator. -/
def intRange (lo hi : Int) : List Int :=
  (List.range (hi - lo).toNat).map (fun (i : Nat) => lo + (i : Int))

/-- One entry of the item list of a .sid file, with the transient status
mark used by the reconciler: 'd' deleted, 'o' existing, 'n' new.
The namespace field of the Python dict is called ns here because
namespace is a reserved word in Lean. -/
structure SidItem where
  ns : String
  identifier : String
  sid : Int
  status : Char
deriving DecidableEq, Repr

/-- The part of the SidFile state the engine operates on: declared
assignment ranges as (entry-point, size) pairs, the item list, and the
is_consistent flag. -/
structure SidState where
  ranges : List (Int × Int)
  items : List SidItem
  is_consistent : Bool
deriving DecidableEq, Repr

/-- Helper for merge_item: find the first item matching (ns, identifier)
and set its status to 'o'; none when no item matches. -/
def mergeItemList (ns ident : String) : List SidItem → Option (List SidItem)
  | [] => none
  | it :: rest =>
    if it.ns = ns ∧ it.identifier = ident then
      some ({ it with status := 'o' } :: rest)
    else
      (mergeItemList ns ident rest).map (fun l => it :: l)

/-- SidFile.merge_item: mark the first matching item 'o', or append a new
item with sid -1 and status 'n' and clear is_consistent. -/
def merge_item (st : SidState) (ns ident : String) : SidState :=
  match mergeItemList ns ident st.items with
  | some items2 => { st with items := items2 }
  | none =>
    { st with
        items := st.items ++ [⟨ns, ident, -1, 'n'⟩],
        is_consistent := false }

/-- SidFile.collect_module_items, abstracted over the schema item
enumeration: every stored item is first marked 'd', then merge_item is
applied to each enumerated (namespace, identifier) pair in order.  The
enumeration list stands for the sequence of merge_item calls the method
performs while walking the module. -/
def collect_module_items (st : SidState) (enum : List (String × String)) : SidState :=
  enum.foldl (fun s p => merge_item s p.1 p.2)
    { st with items := st.items.map (fun it => { it with status := 'd' }) }

/-- The fixed enumeration order of collect_module_items: the module name,
then submodule names, then features, then data-tree paths (in the
depth-first order produced by iterate_schema_nodes), then identities. -/
def schema_enum_of (moduleName : String) (submodules features dataPaths identities : List String) :
    List (String × String) :=
  (moduleName :: submodules).map (fun s => ("module", s))
    ++ features.map (fun s => ("feature", s))
    ++ dataPaths.map (fun s => ("data", s))
    ++ identities.map (fun s => ("identity", s))

/-- Number of items whose sid is the unassigned sentinel -1. -/
def countUnassigned (items : List SidItem) : Nat :=
  (items.filter (fun it => decide (it.sid = -1))).length

/-- The assignment loop of SidFile.assign_sid: each item with sid -1
receives the next generated id; when the generator is exhausted the loop
fails carrying the count of items still unassigned (the Python code's
needed counter at the moment StopIteration is raised). -/
def assignSids : List SidItem → List Int → Except Nat (List SidItem)
  | [], _ => .ok []
  | it :: rest, frees =>
    if it.sid = -1 then
      match frees with
      | [] => .error (countUnassigned (it :: rest))
      | f :: fs =>
        match assignSids rest fs with
        | .ok l => .ok ({ it with sid := f } :: l)
        | .error e => .error e
    else
      match assignSids rest frees with
      | .ok l => .ok (it :: l)
      | .error e => .error e

/-- The lexicographic tuple order Python's sorted uses on
(entry-point, size) pairs in gen_sids. -/
def rangeLe (a b : Int × Int) : Prop := a.1 < b.1 ∨ (a.1 = b.1 ∧ a.2 ≤ b.2)

instance : DecidableRel rangeLe := fun a b => by unfold rangeLe; exact inferInstance

instance : IsTotal (Int × Int) rangeLe := ⟨by intro a b; unfold rangeLe; omega⟩

instance : IsTrans (Int × Int) rangeLe := ⟨by intro a b c; unfold rangeLe; omega⟩

/-- The generator body of SidFile.gen_sids for a single range: sweep sid
upward to high, skipping ids of the sorted used list; returns the yielded
ids together with the suffix of used not yet consumed (the generator's
used_idx survives from one range to the next). -/
def genRange (sid high : Int) (used : List Int) : List Int × List Int :=
  if h1 : sid < high then
    match used with
    | [] => (intRange sid high, [])
    | u :: rest =>
      if h2 : u < sid then genRange sid high rest
      else if h3 : u = sid then genRange (sid + 1) high (u :: rest)
      else if h4 : high < u then (intRange sid high, u :: rest)
      else
        let res := genRange u high (u :: rest)
        (intRange sid u ++ res.1, res.2)
  else ([], used)
termination_by ((high - sid).toNat + used.length)
decreasing_by
  · simp only [List.length_cons]; omega
  · simp only [List.length_cons]; omega
  · simp only [List.length_cons]; omega

/-- The outer loop of SidFile.gen_sids over the (already sorted) ranges. -/
def genSidsSweep : List (Int × Int) → List Int → List Int
  | [], _ => []
  | r :: rest, used =>
    let res := genRange r.1 (r.1 + r.2) used
    res.1 ++ genSidsSweep rest res.2

/-- SidFile.gen_sids: sort the declared (entry-point, size) pairs as
Python tuples and sweep them, yielding all ids not in the sorted used
list.  The Python generator is lazy; the embedding produces the whole
(finite) sequence, of which the allocator consumes a prefix. -/
def gen_sids (ranges : List (Int × Int)) (used : List Int) : List Int :=
  genSidsSweep (List.insertionSort rangeLe ranges) used

/-- The sorted list of assigned sids, Python's
sorted(item['sid'] for item in items if item['sid'] != -1). -/
def used_sids (st : SidState) : List Int :=
  List.insertionSort (· ≤ ·)
    ((st.items.filter (fun it => decide (¬ it.sid = -1))).map (fun it => it.sid))

/-- SidFile.assign_sid: no-op when nothing is unassigned, otherwise feed
the generated ids to the unassigned items in item-list order; on
exhaustion the error carries the remaining deficit. -/
def assign_sid (st : SidState) : Except Nat SidState :=
  if (st.items.filter (fun it => decide (it.sid = -1))).isEmpty then .ok st
  else
    match assignSids st.items (gen_sids st.ranges (used_sids st)) with
    | .ok items2 => .ok { st with items := items2 }
    | .error e => .error e

/-- The inner loop of validate_overlapping_ranges: does the half-open
interval from low to high clash with one of the already collected
(low, high) pairs, under the code's test
used_low <= low < used_high or low <= used_low < high. -/
def overlapsUsed (low high : Int) : List (Int × Int) → Bool
  | [] => false
  | (ul, uh) :: rest =>
    if (ul ≤ low ∧ low < uh) ∨ (low ≤ ul ∧ ul < high) then true
    else overlapsUsed low high rest

/-- The loop of SidFile.validate_overlapping_ranges; true means the
method raises SidFileError (overlapping ranges are not allowed). -/
def validateOverlapGo (used : List (Int × Int)) : List (Int × Int) → Bool
  | [] => false
  | r :: rest =>
    if overlapsUsed r.1 (r.1 + r.2) used then true
    else validateOverlapGo (used ++ [(r.1, r.1 + r.2)]) rest

/-- SidFile.validate_overlapping_ranges on the declared ranges; true
means a SidFileError is raised. -/
def validate_overlapping_ranges (ranges : List (Int × Int)) : Bool :=
  validateOverlapGo [] ranges

/-- SidFile.out_of_ranges: sid lies in none of the declared ranges. -/
def out_of_ranges (ranges : List (Int × Int)) (sid : Int) : Bool :=
  !(ranges.any (fun r => decide (r.1 ≤ sid ∧ sid < r.1 + r.2)))

/-- Sort key of validate_sid: items ordered by sid. -/
def itemLe (a b : SidItem) : Prop := a.sid ≤ b.sid

instance : DecidableRel itemLe := fun a b => by unfold itemLe; exact inferInstance

instance : IsTotal SidItem itemLe := ⟨by intro a b; unfold itemLe; omega⟩

instance : IsTrans SidItem itemLe := ⟨by intro a b c; unfold itemLe; omega⟩

/-- The loop of SidFile.validate_sid over the sid-sorted items, carrying
the previous sid (initially -1); true means a SidFileError is raised. -/
def validateSidGo (ranges : List (Int × Int)) (last : Int) : List SidItem → Bool
  | [] => false
  | it :: rest =>
    if out_of_ranges ranges it.sid then true
    else if it.sid = last then true
    else validateSidGo ranges it.sid rest

/-- SidFile.validate_sid: sort the item list by sid, then flag any sid out
of all declared ranges or equal to its predecessor; true means a
SidFileError is raised. -/
def validate_sid (ranges : List (Int × Int)) (items : List SidItem) : Bool :=
  validateSidGo ranges (-1) (List.insertionSort itemLe items)

/-- Two declared ranges are disjoint as half-open intervals. -/
def rangesDisjoint (a b : Int × Int) : Prop := a.1 + a.2 ≤ b.1 ∨ b.1 + b.2 ≤ a.1

/-- All ids of the declared ranges, each range contributing its half-open
interval, in list order. -/
def rangeIds (l : List (Int × Int)) : List Int :=
  l.flatMap (fun r => intRange r.1 (r.1 + r.2))

theorem mem_intRange {x lo hi : Int} : x ∈ intRange lo hi ↔ lo ≤ x ∧ x < hi := by
  unfold intRange
  simp only [List.mem_map, List.mem_range]
  constructor
  · rintro ⟨i, hi', rfl⟩; omega
  · intro h
    exact ⟨(x - lo).toNat, by omega, by omega⟩

theorem intRange_eq_nil {lo hi : Int} (h : hi ≤ lo) : intRange lo hi = [] := by
  unfold intRange
  have h0 : (hi - lo).toNat = 0 := by omega
  rw [h0]; rfl

theorem pairwise_lt_intRange (lo hi : Int) : (intRange lo hi).Pairwise (· < ·) := by
  unfold intRange
  exact (List.pairwise_lt_range _).map _ (by intro a b hab; omega)

theorem intRange_append {lo mid hi : Int} (h1 : lo ≤ mid) (h2 : mid ≤ hi) :
    intRange lo hi = intRange lo mid ++ intRange mid hi := by
  unfold intRange
  have hn : (hi - lo).toNat = (mid - lo).toNat + (hi - mid).toNat := by omega
  rw [hn, List.range_add, List.map_append, List.map_map]
  congr 1
  apply List.map_congr_left
  intro i _
  simp only [Function.comp_apply]
  omega

theorem intRange_cons {lo hi : Int} (h : lo < hi) :
    intRange lo hi = lo :: intRange (lo + 1) hi := by
  have hone : intRange lo (lo + 1) = [lo] := by
    unfold intRange
    have h1 : (lo + 1 - lo).toNat = 1 := by omega
    rw [h1, List.range_succ]
    simp
  rw [intRange_append (by omega : lo ≤ lo + 1) (by omega : lo + 1 ≤ hi), hone]
  rfl

/-- Correctness of the single-range sweep: on a nondecreasing used list
the yielded ids are exactly the unused ids of the interval, and the
remaining used suffix drops only entries below the interval's top. -/
theorem genRange_spec (sid high : Int) (used : List Int)
    (hs : List.Sorted (· ≤ ·) used) :
    (genRange sid high used).1
        = (intRange sid high).filter (fun x => decide (¬ x ∈ used))
      ∧ ∃ pre, pre ++ (genRange sid high used).2 = used ∧ ∀ u ∈ pre, u < high := by
  induction sid, high, used using genRange.induct with
  | case1 sid high h =>
    rw [genRange]
    simp only [dif_pos h]
    refine ⟨?_, [], rfl, by simp⟩
    rw [eq_comm, List.filter_eq_self]
    intro a _
    simp
  | case2 sid high h u rest hu ih =>
    rw [genRange]
    simp only [dif_pos h, dif_pos hu]
    have hs' : List.Sorted (· ≤ ·) rest := hs.of_cons
    obtain ⟨heq, pre, hpre, hlt⟩ := ih hs'
    refine ⟨?_, u :: pre, by simp [hpre], ?_⟩
    · rw [heq]
      apply List.filter_congr
      intro x hx
      have hx' := mem_intRange.mp hx
      have hxu : x ≠ u := by omega
      simp [List.mem_cons, hxu]
    · intro v hv
      rcases List.mem_cons.mp hv with rfl | hv
      · omega
      · exact hlt v hv
  | case3 high u rest h hlt ih =>
    rw [genRange]
    rw [dif_pos h, dif_neg hlt, dif_pos rfl]
    obtain ⟨heq, pre, hpre, hpl⟩ := ih hs
    refine ⟨?_, pre, hpre, hpl⟩
    rw [heq, intRange_cons h]
    rw [List.filter_cons]
    have hdec : decide (¬ u ∈ u :: rest) = false := by simp
    rw [hdec]
    simp
  | case4 sid high h u rest h2 h3 h4 =>
    rw [genRange]
    simp only [dif_pos h, dif_neg h2, dif_neg h3, dif_pos h4]
    refine ⟨?_, [], rfl, by simp⟩
    rw [eq_comm, List.filter_eq_self]
    intro a ha
    have ha' := mem_intRange.mp ha
    have hall : ∀ y ∈ u :: rest, u ≤ y := by
      intro y hy
      rcases List.mem_cons.mp hy with rfl | hy
      · omega
      · exact (List.sorted_cons.mp hs).1 y hy
    simp only [decide_eq_true_eq]
    intro hmem
    have := hall a hmem
    omega
  | case5 sid high h u rest h2 h3 h4 ih =>
    rw [genRange]
    simp only [dif_pos h, dif_neg h2, dif_neg h3, dif_neg h4]
    obtain ⟨heq, pre, hpre, hpl⟩ := ih hs
    have hsu : sid < u := by omega
    have huh : u ≤ high := by omega
    refine ⟨?_, pre, hpre, hpl⟩
    rw [intRange_append (by omega : sid ≤ u) huh, List.filter_append, heq]
    congr 1
    rw [eq_comm, List.filter_eq_self]
    intro a ha
    have ha' := mem_intRange.mp ha
    have hall : ∀ y ∈ u :: rest, u ≤ y := by
      intro y hy
      rcases List.mem_cons.mp hy with rfl | hy
      · omega
      · exact (List.sorted_cons.mp hs).1 y hy
    simp only [decide_eq_true_eq]
    intro hmem
    have := hall a hmem
    omega
  | case6 sid high used h =>
    rw [genRange.eq_def]
    simp only [dif_neg h]
    refine ⟨?_, [], rfl, by simp⟩
    rw [intRange_eq_nil (by omega : high ≤ sid)]
    rfl

/-- Correctness of the multi-range sweep, assuming the ranges appear in
ascending order with no overlap (each range ends before the next begins):
the swept ids are exactly the unused ids of the ranges, in range order. -/
theorem genSidsSweep_spec (rs : List (Int × Int)) (used : List Int)
    (hs : List.Sorted (· ≤ ·) used)
    (hchain : rs.Pairwise (fun a b => a.1 + a.2 ≤ b.1)) :
    genSidsSweep rs used = (rangeIds rs).filter (fun x => decide (¬ x ∈ used)) := by
  induction rs generalizing used with
  | nil => simp [genSidsSweep, rangeIds]
  | cons r rest ih =>
    obtain ⟨h1, pre, hpre_eq, hprelt⟩ := genRange_spec r.1 (r.1 + r.2) used hs
    generalize hg : (genRange r.1 (r.1 + r.2) used).2 = s2 at hpre_eq
    have hs2 : List.Sorted (· ≤ ·) s2 := by
      rw [← hpre_eq] at hs
      exact hs.sublist (List.sublist_append_right pre _)
    have hhead := (List.pairwise_cons.mp hchain).1
    have hchain2 := (List.pairwise_cons.mp hchain).2
    show (genRange r.1 (r.1 + r.2) used).1
        ++ genSidsSweep rest (genRange r.1 (r.1 + r.2) used).2 = _
    rw [hg, h1, ih _ hs2 hchain2]
    unfold rangeIds
    rw [List.flatMap_cons, List.filter_append]
    congr 1
    apply List.filter_congr
    intro x hx
    obtain ⟨r2, hr2, hxr⟩ := List.mem_flatMap.mp hx
    have hx1 := mem_intRange.mp hxr
    have hge : r.1 + r.2 ≤ x := le_trans (hhead r2 hr2) hx1.1
    have hnp : x ∉ pre := by
      intro hc
      have := hprelt x hc
      omega
    have hmem : x ∈ used ↔ x ∈ pre ∨ x ∈ s2 := by
      rw [← hpre_eq]
      exact List.mem_append
    rw [decide_eq_decide]
    rw [hmem]
    constructor
    · intro hn hc
      rcases hc with hc | hc
      · exact hnp hc
      · exact hn hc
    · intro hn hc
      exact hn (Or.inr hc)

/-- gen_sids as a filter: with pairwise-disjoint positive-size ranges and
a nondecreasing used list, the generated ids are exactly the unused ids
of the declared ranges, swept in sorted range order. -/
theorem gen_sids_eq_filter (ranges : List (Int × Int)) (used : List Int)
    (hs : List.Sorted (· ≤ ·) used)
    (hdis : ranges.Pairwise rangesDisjoint)
    (hpos : ∀ r ∈ ranges, 0 < r.2) :
    gen_sids ranges used
      = (rangeIds (List.insertionSort rangeLe ranges)).filter
          (fun x => decide (¬ x ∈ used)) := by
  unfold gen_sids
  apply genSidsSweep_spec _ _ hs
  have hperm := List.perm_insertionSort rangeLe ranges
  have hdis2 : (List.insertionSort rangeLe ranges).Pairwise rangesDisjoint :=
    (hperm.pairwise_iff (fun hab => hab.symm)).mpr hdis
  have hsorted : List.Sorted rangeLe (List.insertionSort rangeLe ranges) :=
    List.sorted_insertionSort rangeLe ranges
  have hpos2 : ∀ r ∈ List.insertionSort rangeLe ranges, 0 < r.2 :=
    fun r hr => hpos r (hperm.subset hr)
  refine (hsorted.and hdis2).imp_of_mem ?_
  intro a b _ hb hab
  have := hpos2 b hb
  rcases hab with ⟨hle, hd⟩
  unfold rangeLe at hle
  unfold rangesDisjoint at hd
  omega

/-- Ids of the declared ranges of a chain-ordered range list are strictly
ascending. -/
theorem rangeIds_pairwise_lt (rs : List (Int × Int))
    (hchain : rs.Pairwise (fun a b => a.1 + a.2 ≤ b.1)) :
    (rangeIds rs).Pairwise (· < ·) := by
  induction rs with
  | nil => simp [rangeIds]
  | cons r rest ih =>
    have hhead := (List.pairwise_cons.mp hchain).1
    have hchain2 := (List.pairwise_cons.mp hchain).2
    unfold rangeIds
    rw [List.flatMap_cons]
    rw [List.pairwise_append]
    refine ⟨pairwise_lt_intRange _ _, ih hchain2, ?_⟩
    intro a ha b hb
    have ha1 := mem_intRange.mp ha
    obtain ⟨r2, hr2, hbr⟩ := List.mem_flatMap.mp hb
    have hb1 := mem_intRange.mp hbr
    have := hhead r2 hr2
    omega

/-- The chain property of the sorted range list, derived from pairwise
disjointness and positive sizes. -/
theorem sorted_ranges_chain (ranges : List (Int × Int))
    (hdis : ranges.Pairwise rangesDisjoint)
    (hpos : ∀ r ∈ ranges, 0 < r.2) :
    (List.insertionSort rangeLe ranges).Pairwise (fun a b => a.1 + a.2 ≤ b.1) := by
  have hperm := List.perm_insertionSort rangeLe ranges
  have hdis2 : (List.insertionSort rangeLe ranges).Pairwise rangesDisjoint :=
    (hperm.pairwise_iff (fun hab => hab.symm)).mpr hdis
  have hsorted : List.Sorted rangeLe (List.insertionSort rangeLe ranges) :=
    List.sorted_insertionSort rangeLe ranges
  have hpos2 : ∀ r ∈ List.insertionSort rangeLe ranges, 0 < r.2 :=
    fun r hr => hpos r (hperm.subset hr)
  refine (hsorted.and hdis2).imp_of_mem ?_
  intro a b _ hb hab
  have := hpos2 b hb
  rcases hab with ⟨hle, hd⟩
  unfold rangeLe at hle
  unfold rangesDisjoint at hd
  omega

/-- Membership in the generated id sequence. -/
theorem mem_gen_sids (ranges : List (Int × Int)) (used : List Int) (x : Int)
    (hs : List.Sorted (· ≤ ·) used)
    (hdis : ranges.Pairwise rangesDisjoint)
    (hpos : ∀ r ∈ ranges, 0 < r.2) :
    x ∈ gen_sids ranges used
      ↔ (∃ r ∈ ranges, r.1 ≤ x ∧ x < r.1 + r.2) ∧ x ∉ used := by
  rw [gen_sids_eq_filter ranges used hs hdis hpos]
  rw [List.mem_filter]
  unfold rangeIds
  rw [List.mem_flatMap]
  have hperm := List.perm_insertionSort rangeLe ranges
  constructor
  · rintro ⟨⟨r, hr, hxr⟩, hdec⟩
    have := mem_intRange.mp hxr
    exact ⟨⟨r, hperm.subset hr, this⟩, by simpa using hdec⟩
  · rintro ⟨⟨r, hr, hxr⟩, hnu⟩
    refine ⟨⟨r, hperm.mem_iff.mpr hr, mem_intRange.mpr hxr⟩, by simpa using hnu⟩

/-- The generated id sequence is strictly ascending. -/
theorem gen_sids_sorted (ranges : List (Int × Int)) (used : List Int)
    (hs : List.Sorted (· ≤ ·) used)
    (hdis : ranges.Pairwise rangesDisjoint)
    (hpos : ∀ r ∈ ranges, 0 < r.2) :
    (gen_sids ranges used).Pairwise (· < ·) := by
  rw [gen_sids_eq_filter ranges used hs hdis hpos]
  exact (rangeIds_pairwise_lt _ (sorted_ranges_chain ranges hdis hpos)).filter _

/-- The generator never yields an id of the used list. -/
theorem gen_sids_not_used (ranges : List (Int × Int)) (used : List Int)
    (hs : List.Sorted (· ≤ ·) used)
    (hdis : ranges.Pairwise rangesDisjoint)
    (hpos : ∀ r ∈ ranges, 0 < r.2) :
    ∀ x ∈ gen_sids ranges used, x ∉ used := by
  intro x hx
  exact ((mem_gen_sids ranges used x hs hdis hpos).mp hx).2

/-- Exhaustion behaviour of the assignment loop: with fewer generated ids
than unassigned items it fails, carrying the count of items still
unassigned when the generator runs dry. -/
theorem assignSids_error (items : List SidItem) (frees : List Int)
    (h : frees.length < countUnassigned items) :
    assignSids items frees = .error (countUnassigned items - frees.length) := by
  induction items generalizing frees with
  | nil => simp [countUnassigned] at h
  | cons it rest ih =>
    by_cases hu : it.sid = -1
    · have hcu : countUnassigned (it :: rest) = countUnassigned rest + 1 := by
        simp [countUnassigned, List.filter_cons, hu]
      cases frees with
      | nil =>
        simp only [assignSids, if_pos hu]
        simp
      | cons f fs =>
        have hlen : fs.length < countUnassigned rest := by
          rw [hcu] at h
          simp only [List.length_cons] at h
          omega
        simp only [assignSids, if_pos hu]
        simp only [ih fs hlen]
        simp only [List.length_cons, hcu]
        congr 1
        omega
    · have hcu : countUnassigned (it :: rest) = countUnassigned rest := by
        simp [countUnassigned, List.filter_cons, hu]
      have h2 : frees.length < countUnassigned rest := by omega
      simp only [assignSids, if_neg hu]
      simp only [ih frees h2]
      rw [hcu]

/-- Success behaviour of the assignment loop, position by position: items
already assigned are untouched, unassigned items keep namespace,
identifier and status and receive an id of the generated list. -/
theorem assignSids_ok (items : List SidItem) (frees : List Int) (items2 : List SidItem)
    (h : assignSids items frees = .ok items2) :
    items2.length = items.length ∧
    ∀ (j : Nat) (it : SidItem), items[j]? = some it →
      ∃ it2 : SidItem, items2[j]? = some it2 ∧
        it2.ns = it.ns ∧ it2.identifier = it.identifier ∧ it2.status = it.status ∧
        (it.sid ≠ -1 → it2 = it) ∧ (it.sid = -1 → it2.sid ∈ frees) := by
  induction items generalizing frees items2 with
  | nil =>
    unfold assignSids at h
    cases h
    simp
  | cons it rest ih =>
    by_cases hu : it.sid = -1
    · cases frees with
      | nil =>
        simp only [assignSids, if_pos hu] at h
        exact absurd h (by simp)
      | cons f fs =>
        simp only [assignSids, if_pos hu] at h
        cases hrec : assignSids rest fs with
        | ok l =>
          rw [hrec] at h
          cases h
          obtain ⟨hlen, hpt⟩ := ih fs l hrec
          refine ⟨by simp [hlen], ?_⟩
          intro j x hx
          cases j with
          | zero =>
            simp only [List.getElem?_cons_zero, Option.some_inj] at hx
            subst hx
            refine ⟨{ it with sid := f }, by simp, rfl, rfl, rfl, ?_, ?_⟩
            · intro hc; exact absurd hu hc
            · intro _; simp
          | succ j =>
            simp only [List.getElem?_cons_succ] at hx ⊢
            obtain ⟨it2, h1, h2, h3, h4, h5, h6⟩ := hpt j x hx
            exact ⟨it2, h1, h2, h3, h4, h5, fun hm => List.mem_cons.mpr (Or.inr (h6 hm))⟩
        | error e =>
          rw [hrec] at h
          cases h
    · simp only [assignSids, if_neg hu] at h
      cases hrec : assignSids rest frees with
      | ok l =>
        rw [hrec] at h
        cases h
        obtain ⟨hlen, hpt⟩ := ih frees l hrec
        refine ⟨by simp [hlen], ?_⟩
        intro j x hx
        cases j with
        | zero =>
          simp only [List.getElem?_cons_zero, Option.some_inj] at hx
          subst hx
          exact ⟨it, by simp, rfl, rfl, rfl, fun _ => rfl, fun hc => absurd hc hu⟩
        | succ j =>
          simp only [List.getElem?_cons_succ] at hx ⊢
          exact hpt j x hx
      | error e =>
        rw [hrec] at h
        cases h

/-- The (namespace, identifier) key of an item. -/
def itemKey (it : SidItem) : String × String := (it.ns, it.identifier)

theorem mergeItemList_none_iff (ns ident : String) (items : List SidItem) :
    mergeItemList ns ident items = none
      ↔ ∀ it ∈ items, ¬(it.ns = ns ∧ it.identifier = ident) := by
  induction items with
  | nil => simp [mergeItemList]
  | cons it rest ih =>
    unfold mergeItemList
    by_cases hc : it.ns = ns ∧ it.identifier = ident
    · rw [if_pos hc]
      simp [hc]
    · rw [if_neg hc]
      rw [Option.map_eq_none', ih, List.forall_mem_cons]
      tauto

/-- Pointwise behaviour of the matching pass: every position keeps its
item, except that a matching position may have its status set to 'o'. -/
theorem mergeItemList_some_get (ns ident : String) :
    ∀ {items items2 : List SidItem}, mergeItemList ns ident items = some items2 →
    items2.length = items.length ∧
    ∀ (j : Nat) (it : SidItem), items[j]? = some it →
      ∃ it2 : SidItem, items2[j]? = some it2 ∧
        (it2 = it ∨ (it.ns = ns ∧ it.identifier = ident ∧ it2 = { it with status := 'o' })) := by
  intro items
  induction items with
  | nil => intro items2 h; cases h
  | cons it rest ih =>
    intro items2 h
    unfold mergeItemList at h
    by_cases hc : it.ns = ns ∧ it.identifier = ident
    · rw [if_pos hc] at h
      cases h
      refine ⟨by simp, ?_⟩
      intro j x hx
      cases j with
      | zero =>
        simp only [List.getElem?_cons_zero, Option.some_inj] at hx
        subst hx
        exact ⟨{ it with status := 'o' }, by simp, Or.inr ⟨hc.1, hc.2, rfl⟩⟩
      | succ j =>
        simp only [List.getElem?_cons_succ] at hx ⊢
        exact ⟨x, hx, Or.inl rfl⟩
    · rw [if_neg hc] at h
      rw [Option.map_eq_some'] at h
      obtain ⟨l2, hl2, rfl⟩ := h
      obtain ⟨hlen, hpt⟩ := ih hl2
      refine ⟨by simp [hlen], ?_⟩
      intro j x hx
      cases j with
      | zero =>
        simp only [List.getElem?_cons_zero, Option.some_inj] at hx
        subst hx
        exact ⟨it, by simp, Or.inl rfl⟩
      | succ j =>
        simp only [List.getElem?_cons_succ] at hx ⊢
        exact hpt j x hx

/-- Shape of the reconciliation fold over an arbitrary starting state:
ranges untouched, the original positions keep namespace, identifier and
sid (and their whole item when their key is never enumerated), and every
appended position carries the unassigned sid -1. -/
theorem foldMerge_shape (enum : List (String × String)) : ∀ (st : SidState),
    (enum.foldl (fun s q => merge_item s q.1 q.2) st).ranges = st.ranges ∧
    st.items.length ≤ (enum.foldl (fun s q => merge_item s q.1 q.2) st).items.length ∧
    (∀ (j : Nat) (it : SidItem), st.items[j]? = some it →
      ∃ it2 : SidItem, (enum.foldl (fun s q => merge_item s q.1 q.2) st).items[j]? = some it2 ∧
        it2.ns = it.ns ∧ it2.identifier = it.identifier ∧ it2.sid = it.sid ∧
        (itemKey it ∉ enum → it2 = it)) ∧
    (∀ (j : Nat) (it2 : SidItem),
      (enum.foldl (fun s q => merge_item s q.1 q.2) st).items[j]? = some it2 →
      st.items.length ≤ j → it2.sid = -1) := by
  induction enum with
  | nil =>
    intro st
    refine ⟨rfl, le_rfl, ?_, ?_⟩
    · intro j it hj
      exact ⟨it, hj, rfl, rfl, rfl, fun _ => rfl⟩
    · intro j it2 hj hlen
      simp only [List.foldl_nil] at hj
      rw [List.getElem?_eq_none hlen] at hj
      cases hj
  | cons p rest ih =>
    intro st
    rw [List.foldl_cons]
    cases hm : mergeItemList p.1 p.2 st.items with
    | some items2 =>
      have hmi : merge_item st p.1 p.2 = { st with items := items2 } := by
        unfold merge_item; rw [hm]
      rw [hmi]
      obtain ⟨hr, hlen, hpt, htail⟩ := ih { st with items := items2 }
      obtain ⟨hlen2, hpt2⟩ := mergeItemList_some_get p.1 p.2 hm
      have hlen3 : items2.length
          ≤ (List.foldl (fun s q => merge_item s q.1 q.2)
              { st with items := items2 } rest).items.length := hlen
      refine ⟨hr, by omega, ?_, ?_⟩
      · intro j it hj
        obtain ⟨itm, hitm, hcase⟩ := hpt2 j it hj
        have hitm2 : ({ st with items := items2 } : SidState).items[j]? = some itm := hitm
        obtain ⟨it2, hit2, h1, h2, h3, h4⟩ := hpt j itm hitm2
        rcases hcase with rfl | ⟨hns, hid, rfl⟩
        · refine ⟨it2, hit2, h1, h2, h3, ?_⟩
          intro hke
          exact h4 (fun hc => hke (List.mem_cons.mpr (Or.inr hc)))
        · refine ⟨it2, hit2, h1, h2, h3, ?_⟩
          intro hke
          exact absurd (List.mem_cons.mpr (Or.inl (by simp [itemKey, hns, hid]))) hke
      · intro j it2 hj hlen4
        refine htail j it2 hj ?_
        show items2.length ≤ j
        omega
    | none =>
      have hmi : merge_item st p.1 p.2 = { st with
          items := st.items ++ [⟨p.1, p.2, -1, 'n'⟩], is_consistent := false } := by
        unfold merge_item; rw [hm]
      rw [hmi]
      obtain ⟨hr, hlen, hpt, htail⟩ := ih { st with
          items := st.items ++ [⟨p.1, p.2, -1, 'n'⟩], is_consistent := false }
      have hlen3 : (st.items ++ [(⟨p.1, p.2, -1, 'n'⟩ : SidItem)]).length
          ≤ (List.foldl (fun s q => merge_item s q.1 q.2) { st with
              items := st.items ++ [⟨p.1, p.2, -1, 'n'⟩], is_consistent := false }
              rest).items.length := hlen
      rw [List.length_append, List.length_cons, List.length_nil] at hlen3
      refine ⟨hr, by omega, ?_, ?_⟩
      · intro j it hj
        obtain ⟨hjlt, -⟩ := List.getElem?_eq_some_iff.mp hj
        have hj2 : ({ st with
            items := st.items ++ [⟨p.1, p.2, -1, 'n'⟩], is_consistent := false }
              : SidState).items[j]? = some it := by
          show (st.items ++ [(⟨p.1, p.2, -1, 'n'⟩ : SidItem)])[j]? = some it
          rw [List.getElem?_append_left hjlt]
          exact hj
        obtain ⟨it2, hit2, h1, h2, h3, h4⟩ := hpt j it hj2
        refine ⟨it2, hit2, h1, h2, h3, ?_⟩
        intro hke
        exact h4 (fun hc => hke (List.mem_cons.mpr (Or.inr hc)))
      · intro j it2 hj hlen4
        rcases Nat.lt_or_ge j (st.items.length + 1) with hj1 | hj1
        · have hjeq : j = st.items.length := by omega
          subst hjeq
          have hnew : ({ st with
              items := st.items ++ [⟨p.1, p.2, -1, 'n'⟩], is_consistent := false }
                : SidState).items[st.items.length]?
              = some ⟨p.1, p.2, -1, 'n'⟩ := by
            show (st.items ++ [(⟨p.1, p.2, -1, 'n'⟩ : SidItem)])[st.items.length]? = _
            rw [List.getElem?_append_right le_rfl]
            simp
          obtain ⟨it3, hit3, h1, h2, h3, -⟩ := hpt st.items.length _ hnew
          rw [hj] at hit3
          cases hit3
          exact h3
        · refine htail j it2 hj ?_
          show (st.items ++ [(⟨p.1, p.2, -1, 'n'⟩ : SidItem)]).length ≤ j
          rw [List.length_append, List.length_cons, List.length_nil]
          omega

/-- When the matched key occurs in the item list and keys are unique, the
matching pass flips exactly the matching item's status to 'o'. -/
theorem mergeItemList_eq_map (ns ident : String) (items : List SidItem)
    (hnd : (items.map itemKey).Nodup)
    (hmem : (ns, ident) ∈ items.map itemKey) :
    mergeItemList ns ident items
      = some (items.map (fun it =>
          if it.ns = ns ∧ it.identifier = ident then { it with status := 'o' } else it)) := by
  induction items with
  | nil => simp at hmem
  | cons it rest ih =>
    simp only [List.map_cons, List.nodup_cons] at hnd
    unfold mergeItemList
    by_cases hc : it.ns = ns ∧ it.identifier = ident
    · rw [if_pos hc]
      rw [List.map_cons, if_pos hc]
      have hrest : rest.map (fun x =>
          if x.ns = ns ∧ x.identifier = ident then { x with status := 'o' } else x) = rest := by
        have hpt : ∀ x ∈ rest, (if x.ns = ns ∧ x.identifier = ident
            then { x with status := 'o' } else x) = x := by
          intro x hx
          rw [if_neg]
          intro hxc
          apply hnd.1
          rw [List.mem_map]
          exact ⟨x, hx, by simp [itemKey, hxc.1, hxc.2, hc.1, hc.2]⟩
        rw [List.map_congr_left hpt, List.map_id']
      rw [hrest]
    · rw [if_neg hc]
      have hmem2 : (ns, ident) ∈ rest.map itemKey := by
        rcases List.mem_cons.mp hmem with hke | hke
        · exfalso
          apply hc
          unfold itemKey at hke
          exact ⟨congrArg Prod.fst hke.symm, congrArg Prod.snd hke.symm⟩
        · exact hke
      rw [ih hnd.2 hmem2]
      rw [List.map_cons, if_neg hc]
      rfl

/-- Exact characterisation of the reconciliation fold when both the item
keys and the enumeration are duplicate free: enumerated keys flip their
item's status to 'o', unmatched enumerated keys append fresh items with
sid -1 and status 'n' in enumeration order, and the consistency flag
survives exactly when nothing was appended. -/
theorem foldMerge_nodup (enum : List (String × String)) : ∀ (base : SidState),
    (base.items.map itemKey).Nodup → enum.Nodup →
    (enum.foldl (fun s q => merge_item s q.1 q.2) base).items
      = base.items.map (fun it =>
          if itemKey it ∈ enum then { it with status := 'o' } else it)
        ++ (enum.filter (fun q => decide (q ∉ base.items.map itemKey))).map
             (fun q => ⟨q.1, q.2, -1, 'n'⟩) ∧
    (enum.foldl (fun s q => merge_item s q.1 q.2) base).is_consistent
      = (base.is_consistent && decide (∀ q ∈ enum, q ∈ base.items.map itemKey)) := by
  induction enum with
  | nil =>
    intro base _ _
    constructor
    · have hid : ∀ x ∈ base.items,
          (if itemKey x ∈ ([] : List (String × String)) then { x with status := 'o' } else x)
            = x := by
        intro x _
        rw [if_neg (by simp)]
      rw [List.foldl_nil, List.map_congr_left hid, List.map_id']
      simp
    · simp
  | cons p rest ih =>
    intro base hnd hen
    obtain ⟨pn, pid⟩ := p
    simp only [List.nodup_cons] at hen
    rw [List.foldl_cons]
    by_cases hp : (pn, pid) ∈ base.items.map itemKey
    · have hm := mergeItemList_eq_map pn pid base.items hnd hp
      have hstep : merge_item base pn pid
          = { base with items := base.items.map (fun it =>
              if it.ns = pn ∧ it.identifier = pid then { it with status := 'o' } else it) } := by
        unfold merge_item
        rw [hm]
      rw [hstep]
      have hkeys : (base.items.map (fun it =>
          if it.ns = pn ∧ it.identifier = pid then { it with status := 'o' } else it)).map itemKey
            = base.items.map itemKey := by
        rw [List.map_map]
        apply List.map_congr_left
        intro x _
        simp only [Function.comp_apply]
        by_cases hc : x.ns = pn ∧ x.identifier = pid
        · rw [if_pos hc]
          rfl
        · rw [if_neg hc]
      obtain ⟨hitems, hflag⟩ := ih { base with items := base.items.map (fun it =>
          if it.ns = pn ∧ it.identifier = pid then { it with status := 'o' } else it) }
        (by
          show ((base.items.map (fun it =>
            if it.ns = pn ∧ it.identifier = pid then { it with status := 'o' } else it)).map
              itemKey).Nodup
          rw [hkeys]; exact hnd) hen.2
      constructor
      · rw [hitems]
        show (base.items.map (fun it =>
              if it.ns = pn ∧ it.identifier = pid then { it with status := 'o' } else it)).map
                (fun it => if itemKey it ∈ rest then { it with status := 'o' } else it)
            ++ (rest.filter (fun q => decide (q ∉ (base.items.map (fun it =>
                  if it.ns = pn ∧ it.identifier = pid then { it with status := 'o' } else it)).map
                    itemKey))).map (fun q => ⟨q.1, q.2, -1, 'n'⟩)
          = _
        congr 1
        · rw [List.map_map]
          apply List.map_congr_left
          intro x _
          simp only [Function.comp_apply]
          by_cases hc : x.ns = pn ∧ x.identifier = pid
          · rw [if_pos hc]
            have hkx : itemKey x ∈ (pn, pid) :: rest :=
              List.mem_cons.mpr (Or.inl (by simp [itemKey, hc.1, hc.2]))
            rw [if_pos hkx]
            have hkflip : itemKey { x with status := 'o' } = itemKey x := rfl
            by_cases hc2 : itemKey { x with status := 'o' } ∈ rest
            · rw [if_pos hc2]
            · rw [if_neg hc2]
          · rw [if_neg hc]
            have hiff : itemKey x ∈ (pn, pid) :: rest ↔ itemKey x ∈ rest := by
              rw [List.mem_cons]
              constructor
              · rintro (hke | hke)
                · exfalso
                  apply hc
                  unfold itemKey at hke
                  exact ⟨congrArg Prod.fst hke, congrArg Prod.snd hke⟩
                · exact hke
              · exact Or.inr
            by_cases hc2 : itemKey x ∈ rest
            · rw [if_pos hc2, if_pos (hiff.mpr hc2)]
            · rw [if_neg hc2, if_neg (fun hcc => hc2 (hiff.mp hcc))]
        · rw [hkeys]
          have hfc : ((pn, pid) :: rest).filter
                (fun q => decide (q ∉ base.items.map itemKey))
              = rest.filter (fun q => decide (q ∉ base.items.map itemKey)) := by
            rw [List.filter_cons]
            rw [show (decide ((pn, pid) ∉ base.items.map itemKey)) = false by simp [hp]]
            simp
          rw [hfc]
      · have hflag2 : (List.foldl (fun s q => merge_item s q.1 q.2)
            { base with items := base.items.map (fun it =>
              if it.ns = pn ∧ it.identifier = pid then { it with status := 'o' } else it) }
            rest).is_consistent
            = (base.is_consistent && decide (∀ q ∈ rest,
                q ∈ (base.items.map (fun it =>
                  if it.ns = pn ∧ it.identifier = pid then { it with status := 'o' }
                  else it)).map itemKey)) := hflag
        rw [hflag2]
        simp only [hkeys]
        have hdc : decide (∀ q ∈ (pn, pid) :: rest, q ∈ base.items.map itemKey)
            = decide (∀ q ∈ rest, q ∈ base.items.map itemKey) := by
          rw [decide_eq_decide, List.forall_mem_cons]
          exact ⟨fun h => h.2, fun h => ⟨hp, h⟩⟩
        rw [hdc]
    · have hm : mergeItemList pn pid base.items = none := by
        rw [mergeItemList_none_iff]
        intro it hit hc
        apply hp
        rw [List.mem_map]
        exact ⟨it, hit, by simp [itemKey, hc.1, hc.2]⟩
      have hstep : merge_item base pn pid = { base with
          items := base.items ++ [⟨pn, pid, -1, 'n'⟩], is_consistent := false } := by
        unfold merge_item
        rw [hm]
      rw [hstep]
      have hkeys : ((base.items ++ [(⟨pn, pid, -1, 'n'⟩ : SidItem)]).map itemKey)
          = base.items.map itemKey ++ [(pn, pid)] := by
        rw [List.map_append]
        rfl
      obtain ⟨hitems, hflag⟩ := ih { base with
          items := base.items ++ [⟨pn, pid, -1, 'n'⟩], is_consistent := false }
        (by
          show ((base.items ++ [(⟨pn, pid, -1, 'n'⟩ : SidItem)]).map itemKey).Nodup
          rw [hkeys, List.nodup_append]
          exact ⟨hnd, List.nodup_singleton _, by simpa using hp⟩)
        hen.2
      constructor
      · rw [hitems]
        show (base.items ++ [(⟨pn, pid, -1, 'n'⟩ : SidItem)]).map
              (fun it => if itemKey it ∈ rest then { it with status := 'o' } else it)
            ++ (rest.filter (fun q => decide (q ∉ (base.items
                  ++ [(⟨pn, pid, -1, 'n'⟩ : SidItem)]).map itemKey))).map
                (fun q => ⟨q.1, q.2, -1, 'n'⟩)
          = _
        have hbase : base.items.map
              (fun it => if itemKey it ∈ rest then { it with status := 'o' } else it)
            = base.items.map
              (fun it => if itemKey it ∈ (pn, pid) :: rest then { it with status := 'o' }
                else it) := by
          apply List.map_congr_left
          intro x hx
          have hxp : itemKey x ≠ (pn, pid) := by
            intro hc
            apply hp
            rw [← hc]
            exact List.mem_map.mpr ⟨x, hx, rfl⟩
          by_cases hc2 : itemKey x ∈ rest
          · rw [if_pos hc2, if_pos (List.mem_cons.mpr (Or.inr hc2))]
          · rw [if_neg hc2, if_neg (by
              rw [List.mem_cons]
              rintro (hcc | hcc)
              · exact hxp hcc
              · exact hc2 hcc)]
        have hfilt : rest.filter (fun q =>
              decide (q ∉ (base.items ++ [(⟨pn, pid, -1, 'n'⟩ : SidItem)]).map itemKey))
            = rest.filter (fun q => decide (q ∉ base.items.map itemKey)) := by
          simp only [hkeys]
          apply List.filter_congr
          intro q hq
          have hqp : q ≠ (pn, pid) := fun hc => hen.1 (hc ▸ hq)
          rw [decide_eq_decide]
          rw [List.mem_append]
          simp [hqp]
        have hnewmap : ([(⟨pn, pid, -1, 'n'⟩ : SidItem)]).map
              (fun it => if itemKey it ∈ rest then { it with status := 'o' } else it)
            = [⟨pn, pid, -1, 'n'⟩] := by
          simp only [List.map_cons, List.map_nil]
          rw [if_neg (by simpa [itemKey] using hen.1)]
        have hfc : ((pn, pid) :: rest).filter
              (fun q => decide (q ∉ base.items.map itemKey))
            = (pn, pid) :: rest.filter (fun q => decide (q ∉ base.items.map itemKey)) := by
          rw [List.filter_cons]
          rw [show (decide ((pn, pid) ∉ base.items.map itemKey)) = true by simp [hp]]
          simp
        rw [List.map_append, hnewmap, hbase, hfilt, hfc]
        rw [List.map_cons]
        rw [List.append_assoc]
        rfl
      · have hflag2 : (List.foldl (fun s q => merge_item s q.1 q.2)
            { base with items := base.items ++ [⟨pn, pid, -1, 'n'⟩], is_consistent := false }
            rest).is_consistent
            = (false && decide (∀ q ∈ rest,
                q ∈ (base.items ++ [(⟨pn, pid, -1, 'n'⟩ : SidItem)]).map itemKey)) := hflag
        rw [hflag2, Bool.false_and]
        have hdc : decide (∀ q ∈ (pn, pid) :: rest, q ∈ base.items.map itemKey) = false := by
          simp only [decide_eq_false_iff_not]
          intro hall
          exact hp (hall (pn, pid) (List.mem_cons.mpr (Or.inl rfl)))
        rw [hdc, Bool.and_false]

/-- The raw overlap test of validate_overlapping_ranges between a stored
(low, high) pair and a candidate interval. -/
def overlapCode (ul uh low high : Int) : Prop :=
  (ul ≤ low ∧ low < uh) ∨ (low ≤ ul ∧ ul < high)

/-- The mathematical overlap of two declared ranges: the half-open
intervals intersect. -/
def rangesOverlap (a b : Int × Int) : Prop :=
  a.1 < b.1 + b.2 ∧ b.1 < a.1 + a.2

theorem overlapsUsed_eq_true_iff (low high : Int) (used : List (Int × Int)) :
    overlapsUsed low high used = true
      ↔ ∃ p ∈ used, overlapCode p.1 p.2 low high := by
  induction used with
  | nil => simp [overlapsUsed]
  | cons p rest ih =>
    obtain ⟨ul, uh⟩ := p
    unfold overlapsUsed
    by_cases hc : (ul ≤ low ∧ low < uh) ∨ (low ≤ ul ∧ ul < high)
    · rw [if_pos hc]
      simp only [true_iff]
      exact ⟨(ul, uh), List.mem_cons.mpr (Or.inl rfl), hc⟩
    · rw [if_neg hc]
      rw [ih]
      constructor
      · rintro ⟨q, hq, hqc⟩
        exact ⟨q, List.mem_cons.mpr (Or.inr hq), hqc⟩
      · rintro ⟨q, hq, hqc⟩
        rcases List.mem_cons.mp hq with rfl | hq
        · exact absurd hqc hc
        · exact ⟨q, hq, hqc⟩

theorem validateOverlapGo_false_iff :
    ∀ (rs : List (Int × Int)) (used : List (Int × Int)),
    validateOverlapGo used rs = false
      ↔ (∀ p ∈ used, ∀ r ∈ rs, ¬ overlapCode p.1 p.2 r.1 (r.1 + r.2)) ∧
        rs.Pairwise (fun a b => ¬ overlapCode a.1 (a.1 + a.2) b.1 (b.1 + b.2)) := by
  intro rs
  induction rs with
  | nil =>
    intro used
    simp [validateOverlapGo]
  | cons r rest ih =>
    intro used
    unfold validateOverlapGo
    by_cases ho : overlapsUsed r.1 (r.1 + r.2) used = true
    · rw [if_pos ho]
      simp only [Bool.true_eq_false, false_iff]
      rintro ⟨hused, -⟩
      obtain ⟨p, hp, hpc⟩ := (overlapsUsed_eq_true_iff _ _ _).mp ho
      exact hused p hp r (List.mem_cons.mpr (Or.inl rfl)) hpc
    · rw [if_neg ho]
      rw [ih]
      have hno : ∀ p ∈ used, ¬ overlapCode p.1 p.2 r.1 (r.1 + r.2) := by
        intro p hp hpc
        exact ho ((overlapsUsed_eq_true_iff _ _ _).mpr ⟨p, hp, hpc⟩)
      constructor
      · rintro ⟨h1, h2⟩
        refine ⟨?_, ?_⟩
        · intro p hp x hx
          rcases List.mem_cons.mp hx with rfl | hx
          · exact hno p hp
          · exact h1 p (List.mem_append.mpr (Or.inl hp)) x hx
        · rw [List.pairwise_cons]
          refine ⟨?_, h2⟩
          intro b hb
          exact h1 (r.1, r.1 + r.2) (List.mem_append.mpr (Or.inr (List.mem_cons.mpr
            (Or.inl rfl)))) b hb
      · rintro ⟨h1, h2⟩
        rw [List.pairwise_cons] at h2
        refine ⟨?_, h2.2⟩
        intro p hp x hx
        rcases List.mem_append.mp hp with hp | hp
        · exact h1 p hp x (List.mem_cons.mpr (Or.inr hx))
        · rcases List.mem_cons.mp hp with rfl | hp
          · exact h2.1 x hx
          · cases hp

theorem bool_true_iff_not_false {b : Bool} : b = true ↔ ¬ (b = false) := by
  cases b <;> simp

/-- The overlap validator flags exactly a violation of pairwise
non-overlap, for positive range sizes. -/
theorem validate_overlapping_ranges_iff (ranges : List (Int × Int))
    (hpos : ∀ r ∈ ranges, 0 < r.2) :
    validate_overlapping_ranges ranges = true
      ↔ ¬ ranges.Pairwise (fun a b => ¬ rangesOverlap a b) := by
  rw [bool_true_iff_not_false]
  unfold validate_overlapping_ranges
  rw [validateOverlapGo_false_iff]
  simp only [List.not_mem_nil, false_implies, implies_true, true_and]
  constructor
  · intro h hp
    apply h
    refine hp.imp_of_mem ?_
    intro a b ha hb hno hcode
    have h1 := hpos a ha
    have h2 := hpos b hb
    apply hno
    unfold overlapCode at hcode
    unfold rangesOverlap
    omega
  · intro h hp
    apply h
    refine hp.imp_of_mem ?_
    intro a b ha hb hno hov
    have h1 := hpos a ha
    have h2 := hpos b hb
    apply hno
    unfold rangesOverlap at hov
    unfold overlapCode
    omega

theorem out_of_ranges_eq_false_iff (ranges : List (Int × Int)) (x : Int) :
    out_of_ranges ranges x = false ↔ ∃ r ∈ ranges, r.1 ≤ x ∧ x < r.1 + r.2 := by
  unfold out_of_ranges
  simp [List.any_eq_true]

theorem validateSidGo_false_iff (ranges : List (Int × Int)) :
    ∀ (items : List SidItem) (last : Int),
    validateSidGo ranges last items = false
      ↔ (∀ it ∈ items, out_of_ranges ranges it.sid = false) ∧
        List.Chain' (· ≠ ·) (last :: items.map (fun it => it.sid)) := by
  intro items
  induction items with
  | nil =>
    intro last
    simp [validateSidGo]
  | cons it rest ih =>
    intro last
    unfold validateSidGo
    by_cases ho : out_of_ranges ranges it.sid = true
    · rw [if_pos ho]
      simp only [Bool.true_eq_false, false_iff]
      rintro ⟨h1, -⟩
      have := h1 it (List.mem_cons.mpr (Or.inl rfl))
      rw [this] at ho
      cases ho
    · have ho2 : out_of_ranges ranges it.sid = false := by
        cases hb : out_of_ranges ranges it.sid
        · rfl
        · exact absurd hb ho
      rw [if_neg (by rw [ho2]; simp : ¬ out_of_ranges ranges it.sid = true)]
      by_cases he : it.sid = last
      · rw [if_pos he]
        simp only [Bool.true_eq_false, false_iff]
        rintro ⟨-, hch⟩
        rw [List.map_cons, List.chain'_cons] at hch
        exact hch.1 he.symm
      · rw [if_neg he]
        rw [ih it.sid]
        rw [List.map_cons, List.chain'_cons]
        constructor
        · rintro ⟨h1, h2⟩
          refine ⟨?_, fun hc => he hc.symm, h2⟩
          intro x hx
          rcases List.mem_cons.mp hx with rfl | hx
          · exact ho2
          · exact h1 x hx
        · rintro ⟨h1, -, h2⟩
          exact ⟨fun x hx => h1 x (List.mem_cons.mpr (Or.inr hx)), h2⟩

/-- A nondecreasing id list whose consecutive entries differ is strictly
increasing. -/
theorem sorted_chain_ne_pairwise_lt : ∀ (l : List Int),
    List.Sorted (· ≤ ·) l → List.Chain' (· ≠ ·) l → l.Pairwise (· < ·) := by
  intro l
  induction l with
  | nil => intro _ _; exact List.Pairwise.nil
  | cons a l ih =>
    intro hs hc
    rw [List.sorted_cons] at hs
    rw [List.pairwise_cons]
    cases l with
    | nil => exact ⟨by simp, List.Pairwise.nil⟩
    | cons b l2 =>
      rw [List.chain'_cons] at hc
      have hab : a < b := lt_of_le_of_ne (hs.1 b (List.mem_cons.mpr (Or.inl rfl))) hc.1
      refine ⟨?_, ih hs.2 hc.2⟩
      intro c hcm
      rcases List.mem_cons.mp hcm with rfl | hcm
      · exact hab
      · have hbc : b ≤ c := (List.sorted_cons.mp hs.2).1 c hcm
        omega

/-- The sid validator flags exactly an out-of-range id or a duplicated
id, provided entry-points are nonnegative (so that no declared range
reaches the -1 loop seed). -/
theorem validate_sid_iff (ranges : List (Int × Int)) (items : List SidItem)
    (hent : ∀ r ∈ ranges, 0 ≤ r.1) :
    validate_sid ranges items = true
      ↔ (∃ it ∈ items, out_of_ranges ranges it.sid = true)
        ∨ ¬ (items.map (fun it => it.sid)).Nodup := by
  rw [bool_true_iff_not_false]
  unfold validate_sid
  rw [validateSidGo_false_iff]
  have hperm : (List.insertionSort itemLe items).Perm items := List.perm_insertionSort _ _
  have hsorted : List.Sorted itemLe (List.insertionSort itemLe items) :=
    List.sorted_insertionSort _ _
  have hsids_sorted : List.Sorted (· ≤ ·)
      ((List.insertionSort itemLe items).map (fun it => it.sid)) :=
    hsorted.map _ (by intro a b hab; exact hab)
  have hsids_perm : ((List.insertionSort itemLe items).map (fun it => it.sid)).Perm
      (items.map (fun it => it.sid)) := hperm.map _
  constructor
  · intro h
    by_contra hcon
    rw [not_or, not_not] at hcon
    apply h
    constructor
    · intro it hit
      cases hb : out_of_ranges ranges it.sid
      · rfl
      · exact absurd ⟨it, hperm.subset hit, hb⟩ hcon.1
    · have hnd : ((List.insertionSort itemLe items).map (fun it => it.sid)).Nodup :=
        (hsids_perm.nodup_iff).mpr hcon.2
      rw [List.chain'_cons']
      constructor
      · intro y hy
        have hym : y ∈ (List.insertionSort itemLe items).map (fun it => it.sid) := by
          cases hmap : (List.insertionSort itemLe items).map (fun it => it.sid) with
          | nil => rw [hmap] at hy; cases hy
          | cons z zs =>
            rw [hmap] at hy
            simp only [List.head?_cons, Option.mem_def, Option.some_inj] at hy
            rw [hy]
            exact List.mem_cons.mpr (Or.inl rfl)
        obtain ⟨it, hit, rfl⟩ := List.mem_map.mp hym
        have hin : out_of_ranges ranges it.sid = false := by
          cases hb : out_of_ranges ranges it.sid
          · rfl
          · exact absurd ⟨it, hperm.subset (hperm.mem_iff.mpr (hperm.subset hit)), hb⟩ hcon.1
        obtain ⟨r, hr, hr1, -⟩ := (out_of_ranges_eq_false_iff ranges it.sid).mp hin
        have := hent r hr
        omega
      · exact hnd.chain'
  · intro h hfalse
    obtain ⟨h1, h2⟩ := hfalse
    rcases h with h | h
    · obtain ⟨it, hit, hb⟩ := h
      have := h1 it (hperm.mem_iff.mpr hit)
      rw [this] at hb
      cases hb
    · apply h
      have hch : List.Chain' (· ≠ ·)
          ((List.insertionSort itemLe items).map (fun it => it.sid)) :=
        (List.chain'_cons'.mp h2).2
      have hpw := sorted_chain_ne_pairwise_lt _ hsids_sorted hch
      have hnd : ((List.insertionSort itemLe items).map (fun it => it.sid)).Nodup :=
        hpw.imp (fun hab => by omega)
      exact hsids_perm.nodup_iff.mp hnd

theorem mem_of_getElem_opt {α : Type} {l : List α} {n : Nat} {a : α}
    (h : l[n]? = some a) : a ∈ l := by
  obtain ⟨hlt, rfl⟩ := List.getElem?_eq_some_iff.mp h
  exact List.getElem_mem hlt

instance : DecidableRel rangesDisjoint := fun a b => by
  unfold rangesDisjoint; exact inferInstance

instance : DecidableRel rangesOverlap := fun a b => by
  unfold rangesOverlap; exact inferInstance

theorem bool_eq_false_of_ne_true {b : Bool} (h : ¬ b = true) : b = false := by
  cases b
  · rfl
  · exact absurd rfl h

/-- C2.  Allocation minimality and determinism: over pairwise-disjoint
declared ranges of positive size and a nondecreasing used list, gen_sids
yields exactly the ids lying in some declared range and not in the used
set, in strictly ascending order; in particular with the single range
(100, 5) and used ids 100 and 102 the first two generated ids are
101 and 103. -/
theorem sid_C2 (ranges : List (Int × Int)) (used : List Int)
    (hdis : ranges.Pairwise rangesDisjoint)
    (hpos : ∀ r ∈ ranges, 0 < r.2)
    (hs : List.Sorted (· ≤ ·) used) :
    (∀ x : Int, x ∈ gen_sids ranges used
        ↔ (∃ r ∈ ranges, r.1 ≤ x ∧ x < r.1 + r.2) ∧ x ∉ used) ∧
    (gen_sids ranges used).Pairwise (· < ·) ∧
    (gen_sids [(100, 5)] [100, 102]).take 2 = [101, 103] := by
  refine ⟨fun x => mem_gen_sids ranges used x hs hdis hpos,
    gen_sids_sorted ranges used hs hdis hpos, ?_⟩
  have h1 : gen_sids [(100, 5)] [100, 102] = [101, 103, 104] := by
    show genSidsSweep (List.insertionSort rangeLe [(100, 5)]) [100, 102] = _
    rw [show List.insertionSort rangeLe [(100, 5)] = [(100, 5)] from rfl]
    show (genRange 100 (100 + 5) [100, 102]).1
        ++ genSidsSweep [] (genRange 100 (100 + 5) [100, 102]).2 = _
    have h2 : genRange 100 (100 + 5) [100, 102] = ([101, 103, 104], []) := by
      simp +decide [genRange, intRange]
    rw [h2]
    rfl
  rw [h1]
  rfl

/-- Closed instance of C2 at the claim's concrete input. -/
theorem sid_C2_witness : (gen_sids [(100, 5)] [100, 102]).take 2 = [101, 103] :=
  (sid_C2 [(100, 5)] [100, 102] (by decide) (by decide) (by decide)).2.2

/-- C3.  Allocator exhaustion: when the declared ranges supply fewer free
ids than there are unassigned items, assign_sid fails and the error
carries exactly the number of items still unassigned when the generator
ran dry. -/
theorem sid_C3 (st : SidState)
    (h : (gen_sids st.ranges (used_sids st)).length < countUnassigned st.items) :
    assign_sid st
      = .error (countUnassigned st.items
          - (gen_sids st.ranges (used_sids st)).length) := by
  unfold assign_sid
  have hne : ¬ (st.items.filter (fun it => decide (it.sid = -1))).isEmpty = true := by
    intro hc
    rw [List.isEmpty_iff] at hc
    unfold countUnassigned at h
    rw [hc] at h
    simp at h
  rw [if_neg hne]
  rw [assignSids_error st.items (gen_sids st.ranges (used_sids st)) h]

/-- Closed instance of C3: one range of two ids, both used, one
unassigned item: the failure reports a deficit of exactly 1. -/
theorem sid_C3_witness :
    assign_sid ⟨[(100, 2)],
      [⟨"module", "a", 100, 'o'⟩, ⟨"module", "b", 101, 'o'⟩, ⟨"module", "c", -1, 'n'⟩],
      false⟩ = .error 1 := by
  have hlen : (gen_sids
      (⟨[(100, 2)],
        [⟨"module", "a", 100, 'o'⟩, ⟨"module", "b", 101, 'o'⟩, ⟨"module", "c", -1, 'n'⟩],
        false⟩ : SidState).ranges
      (used_sids ⟨[(100, 2)],
        [⟨"module", "a", 100, 'o'⟩, ⟨"module", "b", 101, 'o'⟩, ⟨"module", "c", -1, 'n'⟩],
        false⟩)).length = 0 := by
    show (genSidsSweep (List.insertionSort rangeLe [(100, 2)]) [100, 101]).length = 0
    rw [show List.insertionSort rangeLe [(100, 2)] = [(100, 2)] from rfl]
    show ((genRange 100 (100 + 2) [100, 101]).1
        ++ genSidsSweep [] (genRange 100 (100 + 2) [100, 101]).2).length = 0
    have h2 : genRange 100 (100 + 2) [100, 101] = ([], [101]) := by
      simp +decide [genRange, intRange]
    rw [h2]
    rfl
  have h := sid_C3 ⟨[(100, 2)],
      [⟨"module", "a", 100, 'o'⟩, ⟨"module", "b", 101, 'o'⟩, ⟨"module", "c", -1, 'n'⟩],
      false⟩ (by rw [hlen]; decide)
  rw [h, hlen]
  have hc : countUnassigned
      [⟨"module", "a", 100, 'o'⟩, ⟨"module", "b", 101, 'o'⟩, ⟨"module", "c", -1, 'n'⟩] = 1 := by
    decide
  rw [show (⟨[(100, 2)],
      [⟨"module", "a", 100, 'o'⟩, ⟨"module", "b", 101, 'o'⟩, ⟨"module", "c", -1, 'n'⟩],
      false⟩ : SidState).items
    = [⟨"module", "a", 100, 'o'⟩, ⟨"module", "b", 101, 'o'⟩, ⟨"module", "c", -1, 'n'⟩] from rfl]
  rw [hc]

/-- C4.  Range-disjointness check: for positive range sizes the overlap
validator flags an error exactly when two declared ranges at distinct
positions intersect, and the outcome does not depend on the order in
which ranges are declared. -/
theorem sid_C4 (ranges : List (Int × Int)) (hpos : ∀ r ∈ ranges, 0 < r.2) :
    (validate_overlapping_ranges ranges = true
      ↔ ∃ (i j : Nat) (hi : i < ranges.length) (hj : j < ranges.length),
          i < j ∧ rangesOverlap ranges[i] ranges[j]) ∧
    (∀ ranges2 : List (Int × Int), ranges.Perm ranges2 →
      validate_overlapping_ranges ranges2 = validate_overlapping_ranges ranges) := by
  have hsymm : ∀ {a b : Int × Int}, ¬ rangesOverlap a b → ¬ rangesOverlap b a := by
    intro a b h hov
    exact h ⟨hov.2, hov.1⟩
  constructor
  · rw [validate_overlapping_ranges_iff ranges hpos]
    rw [List.pairwise_iff_getElem]
    push_neg
    constructor
    · rintro ⟨i, j, hi, hj, hij, hov⟩
      exact ⟨i, j, hi, hj, hij, hov⟩
    · rintro ⟨i, j, hi, hj, hij, hov⟩
      exact ⟨i, j, hi, hj, hij, hov⟩
  · intro ranges2 hperm
    have hpos2 : ∀ r ∈ ranges2, 0 < r.2 := fun r hr => hpos r (hperm.mem_iff.mpr hr)
    have hiff : (¬ ranges.Pairwise (fun a b => ¬ rangesOverlap a b))
        ↔ (¬ ranges2.Pairwise (fun a b => ¬ rangesOverlap a b)) :=
      not_congr (hperm.pairwise_iff hsymm)
    by_cases hb : validate_overlapping_ranges ranges = true
    · have hb2 : validate_overlapping_ranges ranges2 = true :=
        (validate_overlapping_ranges_iff ranges2 hpos2).mpr
          (hiff.mp ((validate_overlapping_ranges_iff ranges hpos).mp hb))
      rw [hb, hb2]
    · have hb2 : ¬ validate_overlapping_ranges ranges2 = true := by
        intro hc
        exact hb ((validate_overlapping_ranges_iff ranges hpos).mpr
          (hiff.mpr ((validate_overlapping_ranges_iff ranges2 hpos2).mp hc)))
      rw [bool_eq_false_of_ne_true hb, bool_eq_false_of_ne_true hb2]

/-- Closed instance of C4: the overlapping declaration (100, 5), (103, 4)
is rejected. -/
theorem sid_C4_witness : validate_overlapping_ranges [(100, 5), (103, 4)] = true :=
  (sid_C4 [(100, 5), (103, 4)] (by decide)).1.mpr
    ⟨0, 1, by decide, by decide, by decide, by decide, by decide⟩

/-- C5.  Id-range consistency check: with nonnegative entry-points the
sid validator flags exactly an id outside every declared range or a
duplicated id; when it accepts and the ranges are pairwise disjoint,
every id lies in exactly one declared range and the ids are pairwise
distinct. -/
theorem sid_C5 (ranges : List (Int × Int)) (items : List SidItem)
    (hent : ∀ r ∈ ranges, 0 ≤ r.1)
    (hdis : ranges.Pairwise rangesDisjoint) :
    (validate_sid ranges items = true
      ↔ (∃ it ∈ items, ∀ r ∈ ranges, ¬ (r.1 ≤ it.sid ∧ it.sid < r.1 + r.2))
        ∨ ¬ (items.map (fun it => it.sid)).Nodup) ∧
    (validate_sid ranges items = false →
      (∀ it ∈ items, ∃ r ∈ ranges, (r.1 ≤ it.sid ∧ it.sid < r.1 + r.2) ∧
        ∀ r2 ∈ ranges, (r2.1 ≤ it.sid ∧ it.sid < r2.1 + r2.2) → r2 = r) ∧
      (items.map (fun it => it.sid)).Nodup) := by
  have hoor : ∀ x : Int, out_of_ranges ranges x = true
      ↔ ∀ r ∈ ranges, ¬ (r.1 ≤ x ∧ x < r.1 + r.2) := by
    intro x
    rw [bool_true_iff_not_false, out_of_ranges_eq_false_iff]
    constructor
    · intro h r hr hc
      exact h ⟨r, hr, hc.1, hc.2⟩
    · rintro h ⟨r, hr, h1, h2⟩
      exact h r hr ⟨h1, h2⟩
  constructor
  · rw [validate_sid_iff ranges items hent]
    constructor
    · rintro (⟨it, hit, hb⟩ | hnd)
      · exact Or.inl ⟨it, hit, (hoor it.sid).mp hb⟩
      · exact Or.inr hnd
    · rintro (⟨it, hit, hb⟩ | hnd)
      · exact Or.inl ⟨it, hit, (hoor it.sid).mpr hb⟩
      · exact Or.inr hnd
  · intro hfalse
    have hnot : ¬ ((∃ it ∈ items, out_of_ranges ranges it.sid = true)
        ∨ ¬ (items.map (fun it => it.sid)).Nodup) := by
      intro hc
      have := (validate_sid_iff ranges items hent).mpr hc
      rw [hfalse] at this
      cases this
    rw [not_or, not_not] at hnot
    obtain ⟨hno, hnd⟩ := hnot
    refine ⟨?_, hnd⟩
    intro it hit
    have hin : out_of_ranges ranges it.sid = false := by
      cases hb : out_of_ranges ranges it.sid
      · rfl
      · exact absurd ⟨it, hit, hb⟩ hno
    obtain ⟨r, hr, h1, h2⟩ := (out_of_ranges_eq_false_iff ranges it.sid).mp hin
    refine ⟨r, hr, ⟨h1, h2⟩, ?_⟩
    intro r2 hr2 hc2
    by_contra hne
    have hsymm2 : Symmetric rangesDisjoint := by
      intro a b hab
      exact hab.symm
    have hdisj := hdis.forall hsymm2 hr2 hr hne
    unfold rangesDisjoint at hdisj
    omega

/-- Closed instance of C5: a single out-of-range id is rejected. -/
theorem sid_C5_witness :
    validate_sid [(100, 5)] [⟨"module", "a", 107, 'o'⟩] = true :=
  (sid_C5 [(100, 5)] [⟨"module", "a", 107, 'o'⟩] (by decide) (by decide)).1.mpr
    (Or.inl ⟨⟨"module", "a", 107, 'o'⟩, by decide, by decide⟩)

/-- C1.  Append-only stability: reconciliation keeps every stored item at
its position with namespace, identifier and sid unchanged and only ever
appends, an item whose key has left the enumeration is retained with
status 'd', and a successful allocation keeps every already-assigned id
in place while never handing an already-used id (in particular the id X
of the tracked item) to an item that was unassigned. -/
theorem sid_C1 (st : SidState) (enum : List (String × String)) (i : Nat)
    (hi : i < st.items.length) (X : Int)
    (hX : st.items[i].sid = X) (hassigned : X ≠ -1)
    (hdis : st.ranges.Pairwise rangesDisjoint)
    (hpos : ∀ r ∈ st.ranges, 0 < r.2) :
    st.items.length ≤ (collect_module_items st enum).items.length ∧
    (∀ (j : Nat) (it : SidItem), st.items[j]? = some it →
      ∃ it2 : SidItem, (collect_module_items st enum).items[j]? = some it2 ∧
        it2.ns = it.ns ∧ it2.identifier = it.identifier ∧ it2.sid = it.sid) ∧
    (itemKey st.items[i] ∉ enum →
      ∃ it2 : SidItem, (collect_module_items st enum).items[i]? = some it2 ∧
        it2.ns = st.items[i].ns ∧ it2.identifier = st.items[i].identifier ∧
        it2.sid = X ∧ it2.status = 'd') ∧
    (∀ st2 : SidState, assign_sid (collect_module_items st enum) = .ok st2 →
      (∃ it3 : SidItem, st2.items[i]? = some it3 ∧
        it3.ns = st.items[i].ns ∧ it3.identifier = st.items[i].identifier ∧ it3.sid = X) ∧
      (∀ (j : Nat) (it2 it3 : SidItem),
        (collect_module_items st enum).items[j]? = some it2 → it2.sid = -1 →
        st2.items[j]? = some it3 → it3.sid ≠ X)) := by
  have hcoll : collect_module_items st enum
      = enum.foldl (fun s q => merge_item s q.1 q.2)
          { st with items := st.items.map (fun it => { it with status := 'd' }) } := rfl
  obtain ⟨hr, hlen, hpt, htail⟩ := foldMerge_shape enum
    { st with items := st.items.map (fun it => { it with status := 'd' }) }
  rw [← hcoll] at hr hlen hpt htail
  have hmarked : ∀ (j : Nat) (it : SidItem), st.items[j]? = some it →
      ({ st with items := st.items.map (fun it => { it with status := 'd' }) }
        : SidState).items[j]? = some { it with status := 'd' } := by
    intro j it hj
    show (st.items.map (fun it => { it with status := 'd' }))[j]? = _
    rw [List.getElem?_map, hj]
    rfl
  have hpt2 : ∀ (j : Nat) (it : SidItem), st.items[j]? = some it →
      ∃ it2 : SidItem, (collect_module_items st enum).items[j]? = some it2 ∧
        it2.ns = it.ns ∧ it2.identifier = it.identifier ∧ it2.sid = it.sid ∧
        (itemKey it ∉ enum → it2 = { it with status := 'd' }) := by
    intro j it hj
    obtain ⟨it2, hit2, h1, h2, h3, h4⟩ := hpt j { it with status := 'd' } (hmarked j it hj)
    exact ⟨it2, hit2, h1, h2, h3, fun hke => h4 hke⟩
  have hlen2 : st.items.length ≤ (collect_module_items st enum).items.length := by
    have : (st.items.map (fun it => { it with status := 'd' })).length
        ≤ (collect_module_items st enum).items.length := hlen
    simpa using this
  have hii : st.items[i]? = some st.items[i] := List.getElem?_eq_getElem hi
  refine ⟨hlen2, ?_, ?_, ?_⟩
  · intro j it hj
    obtain ⟨it2, hit2, h1, h2, h3, -⟩ := hpt2 j it hj
    exact ⟨it2, hit2, h1, h2, h3⟩
  · intro hke
    obtain ⟨it2, hit2, h1, h2, h3, h4⟩ := hpt2 i st.items[i] hii
    refine ⟨it2, hit2, h1, h2, by rw [h3, hX], ?_⟩
    rw [h4 hke]
  · intro st2 hok
    unfold assign_sid at hok
    by_cases hempty :
        ((collect_module_items st enum).items.filter (fun it => decide (it.sid = -1))).isEmpty
          = true
    · rw [if_pos hempty] at hok
      cases hok
      constructor
      · obtain ⟨it2, hit2, h1, h2, h3, -⟩ := hpt2 i st.items[i] hii
        exact ⟨it2, hit2, h1, h2, by rw [h3, hX]⟩
      · intro j it2 it3 hj2 hsid2 hj3
        exfalso
        rw [List.isEmpty_iff, List.filter_eq_nil_iff] at hempty
        exact hempty it2 (mem_of_getElem_opt hj2) (by simp [hsid2])
    · rw [if_neg hempty] at hok
      cases hrec : assignSids (collect_module_items st enum).items
          (gen_sids (collect_module_items st enum).ranges
            (used_sids (collect_module_items st enum))) with
      | error e =>
        rw [hrec] at hok
        cases hok
      | ok items2 =>
        rw [hrec] at hok
        cases hok
        obtain ⟨hlen3, hpt3⟩ := assignSids_ok _ _ _ hrec
        obtain ⟨it2, hit2, h1, h2, h3, -⟩ := hpt2 i st.items[i] hii
        have hsid2 : it2.sid = X := by rw [h3, hX]
        obtain ⟨it3, hit3, g1, g2, g3, g4, g5⟩ := hpt3 i it2 hit2
        constructor
        · refine ⟨it3, hit3, by rw [g1, h1], by rw [g2, h2], ?_⟩
          rw [g4 (by rw [hsid2]; exact hassigned)]
          exact hsid2
        · intro j itj itj3 hj2 hsidj hj3
          obtain ⟨itj3b, hjb, k1, k2, k3, k4, k5⟩ := hpt3 j itj hj2
          have heq3 : itj3b = itj3 := by
            rw [hjb] at hj3
            exact Option.some_inj.mp hj3
          subst heq3
          have hmem : itj3b.sid ∈ gen_sids (collect_module_items st enum).ranges
              (used_sids (collect_module_items st enum)) := k5 hsidj
          have hnu := gen_sids_not_used (collect_module_items st enum).ranges
            (used_sids (collect_module_items st enum))
            (List.sorted_insertionSort _ _)
            (by rw [hr]; exact hdis)
            (by rw [hr]; exact hpos)
            itj3b.sid hmem
          intro hcx
          apply hnu
          unfold used_sids
          apply (List.perm_insertionSort _ _).mem_iff.mpr
          apply List.mem_map.mpr
          refine ⟨it2, ?_, by rw [hsid2, hcx]⟩
          apply List.mem_filter.mpr
          refine ⟨mem_of_getElem_opt hit2, ?_⟩
          simp only [decide_eq_true_eq]
          rw [hsid2]
          exact hassigned

/-- Closed instance of C1 at a concrete document and enumeration. -/
theorem sid_C1_witness :
    (⟨[(100, 5)], [⟨"module", "x", 100, 'o'⟩], true⟩ : SidState).items.length
      ≤ (collect_module_items ⟨[(100, 5)], [⟨"module", "x", 100, 'o'⟩], true⟩
          [("module", "m")]).items.length :=
  (sid_C1 ⟨[(100, 5)], [⟨"module", "x", 100, 'o'⟩], true⟩ [("module", "m")] 0
    (by decide) 100 (by decide) (by decide) (by decide) (by decide)).1

/-- Characterisation of collect_module_items for duplicate-free item keys
and enumerations: every stored item is kept in place with status 'o'
when its key is enumerated and 'd' otherwise, the enumerated keys absent
from the document are appended in enumeration order as fresh items with
sid -1 and status 'n', and the consistency flag survives exactly when
nothing was appended. -/
theorem collect_characterization (st : SidState) (enum : List (String × String))
    (hnd : (st.items.map itemKey).Nodup) (hen : enum.Nodup) :
    (collect_module_items st enum).items
      = st.items.map (fun it =>
          { it with status := if itemKey it ∈ enum then 'o' else 'd' })
        ++ (enum.filter (fun q => decide (q ∉ st.items.map itemKey))).map
            (fun q => ⟨q.1, q.2, -1, 'n'⟩) ∧
    (collect_module_items st enum).is_consistent
      = (st.is_consistent && decide (∀ q ∈ enum, q ∈ st.items.map itemKey)) := by
  have hkeys : ((st.items.map (fun it => { it with status := 'd' })).map itemKey)
      = st.items.map itemKey := by
    rw [List.map_map]
    rfl
  obtain ⟨h1, h2⟩ := foldMerge_nodup enum
    { st with items := st.items.map (fun it => { it with status := 'd' }) }
    (by
      show ((st.items.map (fun it => { it with status := 'd' })).map itemKey).Nodup
      rw [hkeys]; exact hnd)
    hen
  constructor
  · show (enum.foldl (fun s q => merge_item s q.1 q.2)
        { st with items := st.items.map (fun it => { it with status := 'd' }) }).items = _
    rw [h1]
    show (st.items.map (fun it => { it with status := 'd' })).map
          (fun it => if itemKey it ∈ enum then { it with status := 'o' } else it)
        ++ (enum.filter (fun q => decide (q ∉ (st.items.map
              (fun it => { it with status := 'd' })).map itemKey))).map
            (fun q => ⟨q.1, q.2, -1, 'n'⟩)
      = _
    congr 1
    · rw [List.map_map]
      apply List.map_congr_left
      intro x _
      simp only [Function.comp_apply]
      by_cases hc : itemKey x ∈ enum
      · rw [if_pos (show itemKey { x with status := 'd' } ∈ enum from hc)]
        show ({ x with status := 'o' } : SidItem) = { x with status := if itemKey x ∈ enum then 'o' else 'd' }
        rw [if_pos hc]
      · rw [if_neg (show itemKey { x with status := 'd' } ∉ enum from hc)]
        show ({ x with status := 'd' } : SidItem) = { x with status := if itemKey x ∈ enum then 'o' else 'd' }
        rw [if_neg hc]
    · simp only [hkeys]
  · have h2b : (enum.foldl (fun s q => merge_item s q.1 q.2)
        { st with items := st.items.map (fun it => { it with status := 'd' }) }).is_consistent
        = (st.is_consistent && decide (∀ q ∈ enum, q ∈ (st.items.map
            (fun it => { it with status := 'd' })).map itemKey)) := h2
    show (enum.foldl (fun s q => merge_item s q.1 q.2)
        { st with items := st.items.map (fun it => { it with status := 'd' }) }).is_consistent
      = _
    rw [h2b]
    simp only [hkeys]

/-- C6.  Reconciliation algorithm: walking the fixed enumeration order
(module and submodule names, then features, then data paths in
depth-first order, then identities) marks matched stored items existing,
leaves unmatched stored items deleted, appends one fresh unassigned item
per enumerated key absent from the document, and clears the consistency
flag exactly when something was appended. -/
theorem sid_C6 (st : SidState) (moduleName : String)
    (submodules features dataPaths identities : List String)
    (hnd : (st.items.map itemKey).Nodup)
    (hen : (schema_enum_of moduleName submodules features dataPaths identities).Nodup) :
    (collect_module_items st
        (schema_enum_of moduleName submodules features dataPaths identities)).items
      = st.items.map (fun it =>
          { it with status :=
              if itemKey it ∈ schema_enum_of moduleName submodules features dataPaths identities
              then 'o' else 'd' })
        ++ ((schema_enum_of moduleName submodules features dataPaths identities).filter
              (fun q => decide (q ∉ st.items.map itemKey))).map
            (fun q => ⟨q.1, q.2, -1, 'n'⟩) ∧
    (collect_module_items st
        (schema_enum_of moduleName submodules features dataPaths identities)).is_consistent
      = (st.is_consistent && decide
          (∀ q ∈ schema_enum_of moduleName submodules features dataPaths identities,
            q ∈ st.items.map itemKey)) :=
  collect_characterization st _ hnd hen

/-- Closed instance of C6: one stored module item, an enumeration adding
a feature: the stored item flips to existing, the feature is appended
unassigned and the document becomes inconsistent. -/
theorem sid_C6_witness :
    (collect_module_items ⟨[(100, 5)], [⟨"module", "m", 100, 'o'⟩], true⟩
        (schema_enum_of "m" [] ["f"] [] [])).items
      = [⟨"module", "m", 100, 'o'⟩, ⟨"feature", "f", -1, 'n'⟩] ∧
    (collect_module_items ⟨[(100, 5)], [⟨"module", "m", 100, 'o'⟩], true⟩
        (schema_enum_of "m" [] ["f"] [] [])).is_consistent = false := by
  obtain ⟨h1, h2⟩ := sid_C6 ⟨[(100, 5)], [⟨"module", "m", 100, 'o'⟩], true⟩
    "m" [] ["f"] [] [] (by decide) (by decide)
  constructor
  · rw [h1]
    decide
  · rw [h2]
    decide

/-- Reconciling a document whose item keys coincide with the enumerated
keys marks every item existing, appends nothing and keeps the
consistency flag. -/
theorem collect_sync (st : SidState) (enum : List (String × String))
    (hnd : (st.items.map itemKey).Nodup) (hen : enum.Nodup)
    (hkeys1 : ∀ it ∈ st.items, itemKey it ∈ enum)
    (hkeys2 : ∀ q ∈ enum, q ∈ st.items.map itemKey) :
    (collect_module_items st enum).items
        = st.items.map (fun it => { it with status := 'o' }) ∧
    (collect_module_items st enum).is_consistent = st.is_consistent := by
  obtain ⟨h1, h2⟩ := collect_characterization st enum hnd hen
  constructor
  · rw [h1]
    have hfilt : (enum.filter (fun q => decide (q ∉ st.items.map itemKey))) = [] := by
      rw [List.filter_eq_nil_iff]
      intro q hq
      simp [hkeys2 q hq]
    rw [hfilt]
    simp only [List.map_nil, List.append_nil]
    apply List.map_congr_left
    intro x hx
    rw [if_pos (hkeys1 x hx)]
  · rw [h2]
    rw [show decide (∀ q ∈ enum, q ∈ st.items.map itemKey) = true by simpa using hkeys2]
    exact Bool.and_true _

/-- When no item is unassigned, the allocator is a no-op. -/
theorem assign_sid_noop (st : SidState) (hsid : ∀ it ∈ st.items, it.sid ≠ -1) :
    assign_sid st = .ok st := by
  unfold assign_sid
  have hf : st.items.filter (fun it => decide (it.sid = -1)) = [] := by
    rw [List.filter_eq_nil_iff]
    intro it hit
    simpa using hsid it hit
  rw [hf]
  rfl

/-- The claim of C8 as stated fails: a document holding an item that no
longer appears in the enumeration does not end up with every item
existing after the first reconciliation pass. -/
theorem sid_C8_counterexample :
    ¬ (∀ it ∈ (collect_module_items ⟨[(100, 5)], [⟨"module", "x", 100, 'o'⟩], true⟩
        [("module", "m")]).items, it.status = 'o') := by
  decide

/-- C8 (amended).  For a document already in sync with the enumeration —
item keys and enumerated keys coincide, all ids assigned, flag true,
keys and enumeration duplicate free — reconciling twice yields existing
status for every item on each pass, appends nothing on either pass,
keeps the consistency flag true, and both allocation passes assign
nothing. -/
theorem sid_C8 (st : SidState) (enum : List (String × String))
    (hnd : (st.items.map itemKey).Nodup) (hen : enum.Nodup)
    (hkeys1 : ∀ it ∈ st.items, itemKey it ∈ enum)
    (hkeys2 : ∀ q ∈ enum, q ∈ st.items.map itemKey)
    (hsid : ∀ it ∈ st.items, it.sid ≠ -1)
    (hcons : st.is_consistent = true) :
    (∀ it ∈ (collect_module_items st enum).items, it.status = 'o') ∧
    (collect_module_items st enum).items.length = st.items.length ∧
    (collect_module_items st enum).is_consistent = true ∧
    assign_sid (collect_module_items st enum) = .ok (collect_module_items st enum) ∧
    (∀ it ∈ (collect_module_items (collect_module_items st enum) enum).items,
      it.status = 'o') ∧
    (collect_module_items (collect_module_items st enum) enum).items.length
      = (collect_module_items st enum).items.length ∧
    (collect_module_items (collect_module_items st enum) enum).is_consistent = true ∧
    assign_sid (collect_module_items (collect_module_items st enum) enum)
      = .ok (collect_module_items (collect_module_items st enum) enum) := by
  obtain ⟨h1, h2⟩ := collect_sync st enum hnd hen hkeys1 hkeys2
  have hkeys_st1 : (collect_module_items st enum).items.map itemKey
      = st.items.map itemKey := by
    rw [h1, List.map_map]
    rfl
  have hnd1 : ((collect_module_items st enum).items.map itemKey).Nodup := by
    rw [hkeys_st1]; exact hnd
  have hkeys1b : ∀ it ∈ (collect_module_items st enum).items, itemKey it ∈ enum := by
    intro it hit
    rw [h1] at hit
    obtain ⟨x, hx, rfl⟩ := List.mem_map.mp hit
    exact hkeys1 x hx
  have hkeys2b : ∀ q ∈ enum, q ∈ (collect_module_items st enum).items.map itemKey := by
    intro q hq
    rw [hkeys_st1]
    exact hkeys2 q hq
  have hsid1 : ∀ it ∈ (collect_module_items st enum).items, it.sid ≠ -1 := by
    intro it hit
    rw [h1] at hit
    obtain ⟨x, hx, rfl⟩ := List.mem_map.mp hit
    exact hsid x hx
  obtain ⟨g1, g2⟩ := collect_sync (collect_module_items st enum) enum hnd1 hen hkeys1b hkeys2b
  refine ⟨?_, ?_, ?_, ?_, ?_, ?_, ?_, ?_⟩
  · intro it hit
    rw [h1] at hit
    obtain ⟨x, -, rfl⟩ := List.mem_map.mp hit
    rfl
  · rw [h1]
    exact List.length_map _ _
  · rw [h2, hcons]
  · exact assign_sid_noop _ hsid1
  · intro it hit
    rw [g1] at hit
    obtain ⟨x, -, rfl⟩ := List.mem_map.mp hit
    rfl
  · rw [g1]
    exact List.length_map _ _
  · rw [g2, h2, hcons]
  · apply assign_sid_noop
    intro it hit
    rw [g1] at hit
    obtain ⟨x, hx, rfl⟩ := List.mem_map.mp hit
    exact hsid1 x hx

/-- Closed instance of the amended C8 at a concrete in-sync document. -/
theorem sid_C8_witness :
    ((collect_module_items ⟨[(100, 5)], [⟨"module", "m", 100, 'o'⟩], true⟩
        [("module", "m")]).items.all (fun it => decide (it.status = 'o'))) = true :=
  List.all_eq_true.mpr (fun it hit => decide_eq_true
    ((sid_C8 ⟨[(100, 5)], [⟨"module", "m", 100, 'o'⟩], true⟩ [("module", "m")]
      (by decide) (by decide) (by decide) (by decide) (by decide) (by decide)).1 it hit))

set_option maxHeartbeats 1000000

/-- JSON values as loaded by json.load with object_pairs_hook=OrderedDict:
strings, integers, arrays and ordered objects (association lists). -/
inductive JVal where
  | str : String → JVal
  | int : Int → JVal
  | arr : List JVal → JVal
  | obj : List (String × JVal) → JVal

/-- Python mapping[key]: the value stored under key, if present. -/
def jlookup (k : String) : List (String × JVal) → Option JVal
  | [] => none
  | (k2, v) :: rest => if k2 = k then some v else jlookup k rest

/-- Python mapping[key] = v on an existing key: replace the stored value
in place, keeping the position. -/
def setKey (kvs : List (String × JVal)) (k : String) (v : JVal) : List (String × JVal) :=
  kvs.map (fun p => if p.1 = k then (p.1, v) else p)

/-- Python s.endswith(t) for a single suffix. -/
def strEndsWith (s suffix : String) : Bool :=
  List.isSuffixOf suffix.data s.data

/-- Python s.endswith(tuple): some element of the tuple is a suffix. -/
def endsWithAny (s : String) (sufs : List String) : Bool :=
  sufs.any (fun t => strEndsWith s t)

/-- The decimal value of a digit character, none for a non-digit. -/
def digitVal (c : Char) : Option Nat :=
  if c.isDigit then some (c.toNat - 48) else none

/-- Left-to-right accumulation of decimal digits, failing at the first
non-digit, as Python int() does on the digit part. -/
def parseDigitsGo : List Char → Nat → Option Nat
  | [], acc => some acc
  | c :: cs, acc =>
    match digitVal c with
    | some d => parseDigitsGo cs (acc * 10 + d)
    | none => none

def parseDigits : List Char → Option Nat
  | [] => none
  | c :: cs => parseDigitsGo (c :: cs) 0

/-- The decimal core of Python int(str): an optional sign followed by a
nonempty run of digits; none models the ValueError. -/
def pyInt (s : String) : Option Int :=
  match s.data with
  | [] => none
  | c :: cs =>
    if c = '-' then
      match parseDigits cs with
      | some m => some (-(m : Int))
      | none => none
    else if c = '+' then
      match parseDigits cs with
      | some m => some ((m : Int))
      | none => none
    else
      match parseDigits (c :: cs) with
      | some m => some ((m : Int))
      | none => none

def natDigitChar (d : Nat) : Char := Char.ofNat (48 + d)

/-- Most-significant-first decimal digits of n, with structural fuel. -/
def natDecDigitsGo : Nat → Nat → List Char → List Char
  | 0, _, acc => acc
  | fuel + 1, n, acc =>
    if n < 10 then natDigitChar n :: acc
    else natDecDigitsGo fuel (n / 10) (natDigitChar (n % 10) :: acc)

def natDecDigits (n : Nat) : List Char := natDecDigitsGo (n + 1) n []

/-- Python str() of an internal integer value. -/
def pyStr (n : Int) : String :=
  if n < 0 then String.mk ('-' :: natDecDigits n.natAbs)
  else String.mk (natDecDigits n.natAbs)

theorem digitVal_natDigitChar : ∀ d : Nat, d < 10 → digitVal (natDigitChar d) = some d := by
  decide

theorem natDigitChar_isDigit : ∀ d : Nat, d < 10 → (natDigitChar d).isDigit = true := by
  decide

theorem natDecDigitsGo_parse :
    ∀ (fuel n : Nat), n < fuel → ∀ (acc : List Char),
      parseDigitsGo (natDecDigitsGo fuel n acc) 0 = parseDigitsGo acc n := by
  intro fuel
  induction fuel with
  | zero => intro n hn; omega
  | succ f ih =>
    intro n hn acc
    by_cases h10 : n < 10
    · rw [natDecDigitsGo, if_pos h10]
      rw [parseDigitsGo, digitVal_natDigitChar n h10]
      show parseDigitsGo acc (0 * 10 + n) = parseDigitsGo acc n
      have h2 : 0 * 10 + n = n := by omega
      rw [h2]
    · rw [natDecDigitsGo, if_neg h10]
      have hlt : n / 10 < f := by omega
      rw [ih (n / 10) hlt]
      rw [parseDigitsGo, digitVal_natDigitChar (n % 10) (by omega)]
      show parseDigitsGo acc (n / 10 * 10 + n % 10) = parseDigitsGo acc n
      have h2 : n / 10 * 10 + n % 10 = n := by omega
      rw [h2]

theorem natDecDigitsGo_ne_nil :
    ∀ (fuel n : Nat) (acc : List Char), natDecDigitsGo (fuel + 1) n acc ≠ [] := by
  intro fuel
  induction fuel with
  | zero =>
    intro n acc
    rw [natDecDigitsGo]
    by_cases h10 : n < 10
    · rw [if_pos h10]; simp
    · rw [if_neg h10]; rw [natDecDigitsGo]; simp
  | succ f ih =>
    intro n acc
    rw [natDecDigitsGo]
    by_cases h10 : n < 10
    · rw [if_pos h10]; simp
    · rw [if_neg h10]; exact ih (n / 10) _

theorem natDecDigitsGo_digits :
    ∀ (fuel n : Nat) (acc : List Char), (∀ c ∈ acc, c.isDigit = true) →
      ∀ c ∈ natDecDigitsGo fuel n acc, c.isDigit = true := by
  intro fuel
  induction fuel with
  | zero => intro n acc hacc; exact hacc
  | succ f ih =>
    intro n acc hacc c hc
    rw [natDecDigitsGo] at hc
    by_cases h10 : n < 10
    · rw [if_pos h10] at hc
      rcases List.mem_cons.mp hc with hc | hc
      · rw [hc]; exact natDigitChar_isDigit n h10
      · exact hacc c hc
    · rw [if_neg h10] at hc
      refine ih (n / 10) _ ?_ c hc
      intro c2 hc2
      rcases List.mem_cons.mp hc2 with hc2 | hc2
      · rw [hc2]; exact natDigitChar_isDigit (n % 10) (by omega)
      · exact hacc c2 hc2

theorem parseDigits_natDecDigits (n : Nat) : parseDigits (natDecDigits n) = some n := by
  have hne := natDecDigitsGo_ne_nil n n []
  rcases hd : natDecDigitsGo (n + 1) n [] with _ | ⟨c, cs⟩
  · exact absurd hd hne
  · unfold natDecDigits
    rw [hd, parseDigits]
    have hmain := natDecDigitsGo_parse (n + 1) n (by omega) []
    rw [hd] at hmain
    rw [hmain, parseDigitsGo]

theorem pyInt_pyStr (n : Int) : pyInt (pyStr n) = some n := by
  by_cases hneg : n < 0
  · rw [pyStr, if_pos hneg]
    show (if '-' = '-' then
        match parseDigits (natDecDigits n.natAbs) with
        | some m => some (-(m : Int))
        | none => none
      else if '-' = '+' then
        match parseDigits (natDecDigits n.natAbs) with
        | some m => some ((m : Int))
        | none => none
      else
        match parseDigits ('-' :: natDecDigits n.natAbs) with
        | some m => some ((m : Int))
        | none => none) = some n
    rw [if_pos rfl, parseDigits_natDecDigits]
    show some (-(n.natAbs : Int)) = some n
    congr 1
    omega
  · rw [pyStr, if_neg hneg]
    have hne := natDecDigitsGo_ne_nil n.natAbs n.natAbs []
    rcases hd : natDecDigitsGo (n.natAbs + 1) n.natAbs [] with _ | ⟨c, cs⟩
    · exact absurd hd hne
    · have hcd : c.isDigit = true := by
        refine natDecDigitsGo_digits (n.natAbs + 1) n.natAbs [] (by simp) c ?_
        rw [hd]
        exact List.mem_cons_self c cs
      have hc1 : ¬ c = '-' := by
        intro he; rw [he] at hcd; exact absurd hcd (by decide)
      have hc2 : ¬ c = '+' := by
        intro he; rw [he] at hcd; exact absurd hcd (by decide)
      have hpd : parseDigits (c :: cs) = some n.natAbs := by
        have h0 := parseDigits_natDecDigits n.natAbs
        unfold natDecDigits at h0
        rw [hd] at h0
        exact h0
      unfold natDecDigits
      rw [hd]
      show (if c = '-' then
          match parseDigits cs with
          | some m => some (-(m : Int))
          | none => none
        else if c = '+' then
          match parseDigits cs with
          | some m => some ((m : Int))
          | none => none
        else
          match parseDigits (c :: cs) with
          | some m => some ((m : Int))
          | none => none) = some n
      rw [if_neg hc1, if_neg hc2, hpd]
      show some ((n.natAbs : Int)) = some n
      congr 1
      omega

/-- The namespace_ends tuple of the plugin: item namespaces are checked
with str.endswith against these. -/
def namespace_ends : List String := ["module", "identity", "feature", "data"]

/-- The status_ends tuple of the plugin: sid-file-status values are
checked with str.endswith against these. -/
def status_ends : List String := ["unpublished", "published"]

/-- SidFile.strip_wrapper: the first key of the top-level object decides;
it must be ietf-sid-file:sid-file and hold an object, which becomes the
content. -/
def strip_wrapper : List (String × JVal) → Except String (List (String × JVal))
  | [] => Except.error "mandatory object ietf-sid-file:sid-file not present"
  | (k, v) :: _ =>
    if k = "ietf-sid-file:sid-file" then
      match v with
      | JVal.obj kvs => Except.ok kvs
      | _ => Except.error "key ietf-sid-file:sid-file, invalid value"
    else Except.error "invalid field"

/-- The key loop of SidFile.validate_ranges over one range object,
threading the global entry-point/size absent flags and coercing the
string values to integers in place. -/
def validateRangePairs : List (String × JVal) → Bool → Bool →
    Except String (List (String × JVal) × Bool × Bool)
  | [], epa, sa => Except.ok ([], epa, sa)
  | (k, v) :: rest, epa, sa =>
    if k = "entry-point" ∨ k = "ietf-sid-file:entry-point" then
      match v with
      | JVal.str s =>
        match pyInt s with
        | some n =>
          match validateRangePairs rest false sa with
          | Except.ok (r, f1, f2) => Except.ok ((k, JVal.int n) :: r, f1, f2)
          | Except.error e => Except.error e
        | none => Except.error "invalid entry-point value"
      | _ => Except.error "invalid entry-point value"
    else if k = "size" ∨ k = "ietf-sid-file:size" then
      match v with
      | JVal.str s =>
        match pyInt s with
        | some n =>
          match validateRangePairs rest epa false with
          | Except.ok (r, f1, f2) => Except.ok ((k, JVal.int n) :: r, f1, f2)
          | Except.error e => Except.error e
        | none => Except.error "invalid size value"
      | _ => Except.error "invalid size value"
    else Except.error "invalid key"

/-- The outer loop of SidFile.validate_ranges; a non-object entry models
the TypeError the source would raise indexing it. -/
def validateRangesGo : List JVal → Bool → Bool → Except String (List JVal × Bool × Bool)
  | [], epa, sa => Except.ok ([], epa, sa)
  | JVal.obj kvs :: rest, epa, sa =>
    match validateRangePairs kvs epa sa with
    | Except.ok (kvs2, f1, f2) =>
      match validateRangesGo rest f1 f2 with
      | Except.ok (rest2, g1, g2) => Except.ok (JVal.obj kvs2 :: rest2, g1, g2)
      | Except.error e => Except.error e
    | Except.error e => Except.error e
  | _ :: _, _, _ => Except.error "invalid range entry"

/-- SidFile.validate_ranges: both fields must occur somewhere in the
range list (the absent flags are global, so an empty list is rejected). -/
def validate_ranges (ranges : List JVal) : Except String (List JVal) :=
  match validateRangesGo ranges true true with
  | Except.ok (r, epa, sa) =>
    if epa then Except.error "mandatory field entry-point not present"
    else if sa then Except.error "mandatory field size not present"
    else Except.ok r
  | Except.error e => Except.error e

/-- The key loop of SidFile.validate_items over one item object: the
namespace value must be a string passing endswith(namespace_ends), the
identifier a string, the sid a string int() accepts, coerced in place. -/
def validateItemPairs : List (String × JVal) → Bool → Bool → Bool →
    Except String (List (String × JVal) × Bool × Bool × Bool)
  | [], na, ia, sa => Except.ok ([], na, ia, sa)
  | (k, v) :: rest, na, ia, sa =>
    if k = "namespace" ∨ k = "ietf-sid-file:namespace" then
      match v with
      | JVal.str s =>
        if endsWithAny s namespace_ends then
          match validateItemPairs rest false ia sa with
          | Except.ok (r, f) => Except.ok ((k, v) :: r, f)
          | Except.error e => Except.error e
        else Except.error "invalid namespace value"
      | _ => Except.error "invalid namespace value"
    else if k = "identifier" ∨ k = "ietf-sid-file:identifier" then
      match v with
      | JVal.str _ =>
        match validateItemPairs rest na false sa with
        | Except.ok (r, f) => Except.ok ((k, v) :: r, f)
        | Except.error e => Except.error e
      | _ => Except.error "invalid identifier value"
    else if k = "sid" ∨ k = "ietf-sid-file:sid" then
      match v with
      | JVal.str s =>
        match pyInt s with
        | some n =>
          match validateItemPairs rest na ia false with
          | Except.ok (r, f) => Except.ok ((k, JVal.int n) :: r, f)
          | Except.error e => Except.error e
        | none => Except.error "invalid sid value"
      | _ => Except.error "invalid sid value"
    else Except.error "invalid key"

/-- The outer loop of SidFile.validate_items. -/
def validateItemsGo : List JVal → Bool → Bool → Bool →
    Except String (List JVal × Bool × Bool × Bool)
  | [], na, ia, sa => Except.ok ([], na, ia, sa)
  | JVal.obj kvs :: rest, na, ia, sa =>
    match validateItemPairs kvs na ia sa with
    | Except.ok (kvs2, f) =>
      match validateItemsGo rest f.1 f.2.1 f.2.2 with
      | Except.ok (rest2, g) => Except.ok (JVal.obj kvs2 :: rest2, g)
      | Except.error e => Except.error e
    | Except.error e => Except.error e
  | _ :: _, _, _, _ => Except.error "invalid item entry"

/-- SidFile.validate_items with its global absent flags. -/
def validate_items (items : List JVal) : Except String (List JVal) :=
  match validateItemsGo items true true true with
  | Except.ok (r, na, ia, sa) =>
    if na then Except.error "mandatory field namespace not present"
    else if ia then Except.error "mandatory field identifier not present"
    else if sa then Except.error "mandatory field sid not present"
    else Except.ok r
  | Except.error e => Except.error e

/-- The key loop of SidFile.validate_dependency_revisions over one
dependency object: both values must be strings, nothing is rewritten. -/
def validateDepPairs : List (String × JVal) → Bool → Bool → Except String (Bool × Bool)
  | [], mna, ra => Except.ok (mna, ra)
  | (k, v) :: rest, mna, ra =>
    if k = "module-name" ∨ k = "ietf-sid-file:module-name" then
      match v with
      | JVal.str _ => validateDepPairs rest false ra
      | _ => Except.error "invalid module-name value"
    else if k = "module-revision" ∨ k = "ietf-sid-file:module-revision" then
      match v with
      | JVal.str _ => validateDepPairs rest mna false
      | _ => Except.error "invalid module-revision value"
    else Except.error "invalid key"

/-- The outer loop of SidFile.validate_dependency_revisions. -/
def validateDepsGo : List JVal → Bool → Bool → Except String (Bool × Bool)
  | [], mna, ra => Except.ok (mna, ra)
  | JVal.obj kvs :: rest, mna, ra =>
    match validateDepPairs kvs mna ra with
    | Except.ok (f1, f2) => validateDepsGo rest f1 f2
    | Except.error e => Except.error e
  | _ :: _, _, _ => Except.error "invalid dependency entry"

/-- SidFile.validate_dependency_revisions with its global absent flags. -/
def validate_dependency_revisions (items : List JVal) : Except String Unit :=
  match validateDepsGo items true true with
  | Except.ok (mna, ra) =>
    if mna then Except.error "mandatory field module-name not present"
    else if ra then Except.error "mandatory field module-revision not present"
    else Except.ok ()
  | Except.error e => Except.error e

/-- The key loop of SidFile.validate_key_and_value over the stripped
content, threading the four global absent flags and keeping the source's
branch order; the sub-validators rewrite range and item lists in place. -/
def validateTopPairs : List (String × JVal) → Bool → Bool → Bool → Bool →
    Except String (List (String × JVal) × Bool × Bool × Bool × Bool)
  | [], ara, mna, mra, ita => Except.ok ([], ara, mna, mra, ita)
  | (k, v) :: rest, ara, mna, mra, ita =>
    if k = "assignment-range" ∨ k = "ietf-sid-file:assignment-range" then
      match v with
      | JVal.arr rs =>
        match validate_ranges rs with
        | Except.ok rs2 =>
          match validateTopPairs rest false mna mra ita with
          | Except.ok (r, f) => Except.ok ((k, JVal.arr rs2) :: r, f)
          | Except.error e => Except.error e
        | Except.error e => Except.error e
      | _ => Except.error "key assignment-range, invalid value"
    else if k = "module-name" ∨ k = "ietf-sid-file:module-name" then
      match validateTopPairs rest ara false mra ita with
      | Except.ok (r, f) => Except.ok ((k, v) :: r, f)
      | Except.error e => Except.error e
    else if k = "module-revision" ∨ k = "ietf-sid-file:module-revision" then
      match validateTopPairs rest ara mna false ita with
      | Except.ok (r, f) => Except.ok ((k, v) :: r, f)
      | Except.error e => Except.error e
    else if k = "description" ∨ k = "ietf-sid-file:description" then
      match v with
      | JVal.str _ =>
        match validateTopPairs rest ara mna mra ita with
        | Except.ok (r, f) => Except.ok ((k, v) :: r, f)
        | Except.error e => Except.error e
      | _ => Except.error "invalid description value"
    else if k = "sid-file-version" ∨ k = "ietf-sid-file:sid-file-version" then
      match v with
      | JVal.int _ =>
        match validateTopPairs rest ara mna mra ita with
        | Except.ok (r, f) => Except.ok ((k, v) :: r, f)
        | Except.error e => Except.error e
      | _ => Except.error "invalid sid-file-version value"
    else if k = "sid-file-status" ∨ k = "ietf-sid-file:sid-file-status" then
      match v with
      | JVal.str s =>
        if endsWithAny s status_ends then
          match validateTopPairs rest ara mna mra ita with
          | Except.ok (r, f) => Except.ok ((k, v) :: r, f)
          | Except.error e => Except.error e
        else Except.error "invalid sid-file-status value"
      | _ => Except.error "invalid sid-file-status value"
    else if k = "dependency-revision" ∨ k = "ietf-sid-file:dependency-revision" then
      match v with
      | JVal.arr ds =>
        match validate_dependency_revisions ds with
        | Except.ok _ =>
          match validateTopPairs rest ara mna mra ita with
          | Except.ok (r, f) => Except.ok ((k, v) :: r, f)
          | Except.error e => Except.error e
        | Except.error e => Except.error e
      | _ => Except.error "key dependency-revision, invalid value"
    else if k = "item" ∨ k = "ietf-sid-file:item" then
      match v with
      | JVal.arr xs =>
        match validate_items xs with
        | Except.ok xs2 =>
          match validateTopPairs rest ara mna mra false with
          | Except.ok (r, f) => Except.ok ((k, JVal.arr xs2) :: r, f)
          | Except.error e => Except.error e
        | Except.error e => Except.error e
      | _ => Except.error "key item, invalid value"
    else Except.error "invalid field"

/-- SidFile.validate_key_and_value: run the key loop, then reject any
still-absent mandatory field in the source's order. -/
def validate_key_and_value (content : List (String × JVal)) :
    Except String (List (String × JVal)) :=
  match validateTopPairs content true true true true with
  | Except.ok (c2, ara, mna, mra, ita) =>
    if mna then Except.error "mandatory field module-name not present"
    else if mra then Except.error "mandatory field module-revision not present"
    else if ara then Except.error "mandatory field assignment-range not present"
    else if ita then Except.error "mandatory field item not present"
    else Except.ok c2
  | Except.error e => Except.error e

/-- Python k.split on a colon. -/
def splitOnColon : List Char → List (List Char)
  | [] => [[]]
  | c :: rest =>
    if c = ':' then [] :: splitOnColon rest
    else
      match splitOnColon rest with
      | g :: gs => (c :: g) :: gs
      | [] => [[c]]

/-- One key of SidFile.normalize_key_names: an ietf-sid-file qualified
name drops its module prefix, every other key stays. -/
def normalizeKey (k : String) : String :=
  match splitOnColon k.data with
  | [a, b] => if a = "ietf-sid-file".data then String.mk b else k
  | _ => k

mutual
/-- SidFile.normalize_key_names on a mapping: rename each key and recurse
into list values; popitem-and-reinsert cycles the dict once, so the order
is preserved. -/
def normalize_key_names : List (String × JVal) → List (String × JVal)
  | [] => []
  | (k, v) :: rest => (normalizeKey k, normalizeListVal v) :: normalize_key_names rest

/-- The list-value branch of normalize_key_names. -/
def normalizeListVal : JVal → JVal
  | JVal.arr entries => JVal.arr (normalizeEntries entries)
  | v => v

/-- normalize_key_names over the entries of a list value; on a non-mapping
entry the source would raise, but validation has already excluded it. -/
def normalizeEntries : List JVal → List JVal
  | [] => []
  | JVal.obj kvs :: rest => JVal.obj (normalize_key_names kvs) :: normalizeEntries rest
  | v :: rest => v :: normalizeEntries rest
end

/-- The parse pipeline applied to a loaded .sid file: strip_wrapper, then
validate_key_and_value, then normalize_key_names. -/
def parseSidFile (top : List (String × JVal)) : Except String (List (String × JVal)) :=
  match strip_wrapper top with
  | Except.ok c =>
    match validate_key_and_value c with
    | Except.ok c2 => Except.ok (normalize_key_names c2)
    | Except.error e => Except.error e
  | Except.error e => Except.error e

/-- One range of SidFile.convert_yang_uin64_values: fetch entry-point and
size (KeyError when missing, modelled as none) and stringify integer
values in place. -/
def convertRange (v : JVal) : Option JVal :=
  match v with
  | JVal.obj kvs =>
    match jlookup "entry-point" kvs with
    | none => none
    | some ep =>
      match
        (match ep with
          | JVal.int n => setKey kvs "entry-point" (JVal.str (pyStr n))
          | _ => kvs) with
      | kvs1 =>
        match jlookup "size" kvs1 with
        | none => none
        | some sz =>
          match sz with
          | JVal.int n => some (JVal.obj (setKey kvs1 "size" (JVal.str (pyStr n))))
          | _ => some (JVal.obj kvs1)
  | _ => none

/-- One item of SidFile.convert_yang_uin64_values: stringify an integer
sid in place, KeyError when the key is missing. -/
def convertItem (v : JVal) : Option JVal :=
  match v with
  | JVal.obj kvs =>
    match jlookup "sid" kvs with
    | none => none
    | some sv =>
      match sv with
      | JVal.int n => some (JVal.obj (setKey kvs "sid" (JVal.str (pyStr n))))
      | _ => some (JVal.obj kvs)
  | _ => none

def convertRangeList : List JVal → Option (List JVal)
  | [] => some []
  | v :: rest =>
    match convertRange v with
    | none => none
    | some v2 =>
      match convertRangeList rest with
      | none => none
      | some r2 => some (v2 :: r2)

def convertItemList : List JVal → Option (List JVal)
  | [] => some []
  | v :: rest =>
    match convertItem v with
    | none => none
    | some v2 =>
      match convertItemList rest with
      | none => none
      | some r2 => some (v2 :: r2)

/-- SidFile.convert_yang_uin64_values: when assignment-range holds a list
both loops run (the source's second guard re-tests assignment-range, not
item, so the item loop is skipped exactly when the range loop is); a
missing assignment-range or item key is a KeyError, a non-list item value
a TypeError, both modelled as none.  A non-list assignment-range skips
both loops and returns the mapping unchanged. -/
def convert_yang_uin64_values (mapping : List (String × JVal)) :
    Option (List (String × JVal)) :=
  match jlookup "assignment-range" mapping with
  | none => none
  | some (JVal.arr rs) =>
    match convertRangeList rs with
    | none => none
    | some rs2 =>
      match jlookup "item" (setKey mapping "assignment-range" (JVal.arr rs2)) with
      | none => none
      | some (JVal.arr xs) =>
        match convertItemList xs with
        | none => none
        | some xs2 =>
          some (setKey (setKey mapping "assignment-range" (JVal.arr rs2)) "item"
            (JVal.arr xs2))
      | some _ => none
  | some _ => some mapping

/-- The canonical top-level field order of SidFile.reorder_per_yang_model. -/
def canonical_order : List String :=
  ["module-name", "module-revision", "sid-file-version", "sid-file-status",
   "description", "dependency-revision", "assignment-range", "item"]

/-- SidFile.reorder_per_yang_model: keep exactly the canonically named
fields, in canonical order; everything else is dropped. -/
def reorder_per_yang_model (mapping : List (String × JVal)) : List (String × JVal) :=
  canonical_order.filterMap (fun nm => (jlookup nm mapping).map (fun v => (nm, v)))

/-- SidFile.preprocess_content: stringify the YANG uint64 fields, reorder
canonically and wrap under the single top-level key. -/
def preprocess_content (content : List (String × JVal)) :
    Option (List (String × JVal)) :=
  match convert_yang_uin64_values content with
  | none => none
  | some c1 => some [("ietf-sid-file:sid-file", JVal.obj (reorder_per_yang_model c1))]

/-- One item of a .sid file document as stored internally after parsing
(namespace, identifier, integer sid; the file carries no status field). -/
structure DocItem where
  ns : String
  identifier : String
  sid : Int
deriving DecidableEq

/-- A .sid file document in its internal, normalized form: mandatory
module-name, module-revision, assignment ranges and items, the three
optional scalar fields, and optional dependency revisions. -/
structure Doc where
  module_name : String
  module_revision : String
  sid_file_version : Option Int
  sid_file_status : Option String
  description : Option String
  dependency_revision : Option (List (String × String))
  assignment_ranges : List (Int × Int)
  items : List DocItem

def rangeJsonInt (r : Int × Int) : JVal :=
  JVal.obj [("entry-point", JVal.int r.1), ("size", JVal.int r.2)]

def rangeJsonStr (r : Int × Int) : JVal :=
  JVal.obj [("entry-point", JVal.str (pyStr r.1)), ("size", JVal.str (pyStr r.2))]

def itemJsonInt (it : DocItem) : JVal :=
  JVal.obj [("namespace", JVal.str it.ns), ("identifier", JVal.str it.identifier),
    ("sid", JVal.int it.sid)]

def itemJsonStr (it : DocItem) : JVal :=
  JVal.obj [("namespace", JVal.str it.ns), ("identifier", JVal.str it.identifier),
    ("sid", JVal.str (pyStr it.sid))]

def depJson (p : String × String) : JVal :=
  JVal.obj [("module-name", JVal.str p.1), ("module-revision", JVal.str p.2)]

/-- The internal content mapping of a document: canonical field order,
integer values for the YANG uint64 fields. -/
def contentOf (d : Doc) : List (String × JVal) :=
  [("module-name", JVal.str d.module_name),
   ("module-revision", JVal.str d.module_revision)]
  ++ (match d.sid_file_version with
      | some v => [("sid-file-version", JVal.int v)]
      | none => [])
  ++ (match d.sid_file_status with
      | some s => [("sid-file-status", JVal.str s)]
      | none => [])
  ++ (match d.description with
      | some s => [("description", JVal.str s)]
      | none => [])
  ++ (match d.dependency_revision with
      | some ds => [("dependency-revision", JVal.arr (ds.map depJson))]
      | none => [])
  ++ [("assignment-range", JVal.arr (d.assignment_ranges.map rangeJsonInt)),
      ("item", JVal.arr (d.items.map itemJsonInt))]

/-- The same content with the YANG uint64 fields stringified, as
convert_yang_uin64_values leaves it. -/
def contentOfStr (d : Doc) : List (String × JVal) :=
  [("module-name", JVal.str d.module_name),
   ("module-revision", JVal.str d.module_revision)]
  ++ (match d.sid_file_version with
      | some v => [("sid-file-version", JVal.int v)]
      | none => [])
  ++ (match d.sid_file_status with
      | some s => [("sid-file-status", JVal.str s)]
      | none => [])
  ++ (match d.description with
      | some s => [("description", JVal.str s)]
      | none => [])
  ++ (match d.dependency_revision with
      | some ds => [("dependency-revision", JVal.arr (ds.map depJson))]
      | none => [])
  ++ [("assignment-range", JVal.arr (d.assignment_ranges.map rangeJsonStr)),
      ("item", JVal.arr (d.items.map itemJsonStr))]

/-- The serialized wire form of a document: stringified, reordered,
wrapped. -/
def wireOf (d : Doc) : List (String × JVal) :=
  [("ietf-sid-file:sid-file", JVal.obj (contentOfStr d))]

def statusOk : Option String → Bool
  | none => true
  | some s => endsWithAny s status_ends

def depsOk : Option (List (String × String)) → Bool
  | none => true
  | some ds => !ds.isEmpty

/-- Well-formedness of a document, matching what the validators accept:
a status value ending in a status_ends word, item namespaces ending in a
namespace_ends word, and nonempty range, item and (when present)
dependency lists, since each validator's global absent flags reject empty
lists. -/
def WFDoc (d : Doc) : Bool :=
  statusOk d.sid_file_status
  && d.items.all (fun it => endsWithAny it.ns namespace_ends)
  && !d.assignment_ranges.isEmpty
  && !d.items.isEmpty
  && depsOk d.dependency_revision

theorem convertRangeList_map (rs : List (Int × Int)) :
    convertRangeList (rs.map rangeJsonInt) = some (rs.map rangeJsonStr) := by
  induction rs with
  | nil => rfl
  | cons r rest ih =>
    simp only [List.map_cons, convertRangeList, ih]
    have h1 : convertRange (rangeJsonInt r) = some (rangeJsonStr r) := by
      simp +decide [convertRange, rangeJsonInt, rangeJsonStr, jlookup, setKey]
    rw [h1]

theorem convertItemList_map (its : List DocItem) :
    convertItemList (its.map itemJsonInt) = some (its.map itemJsonStr) := by
  induction its with
  | nil => rfl
  | cons it rest ih =>
    simp only [List.map_cons, convertItemList, ih]
    have h1 : convertItem (itemJsonInt it) = some (itemJsonStr it) := by
      simp +decide [convertItem, itemJsonInt, itemJsonStr, jlookup, setKey]
    rw [h1]

theorem validateRangesGo_map (rs : List (Int × Int)) :
    ∀ (epa sa : Bool),
      validateRangesGo (rs.map rangeJsonStr) epa sa
        = Except.ok (rs.map rangeJsonInt,
            if rs.isEmpty then epa else false,
            if rs.isEmpty then sa else false) := by
  induction rs with
  | nil => intro epa sa; rfl
  | cons r rest ih =>
    intro epa sa
    have hpairs : validateRangePairs
        [("entry-point", JVal.str (pyStr r.1)), ("size", JVal.str (pyStr r.2))] epa sa
        = Except.ok ([("entry-point", JVal.int r.1), ("size", JVal.int r.2)],
            false, false) := by
      simp +decide [validateRangePairs, pyInt_pyStr]
    simp only [List.map_cons, rangeJsonStr, validateRangesGo, hpairs, ih, ite_self]
    rfl

theorem validate_ranges_map (rs : List (Int × Int)) :
    validate_ranges (rs.map rangeJsonStr)
      = if rs.isEmpty then Except.error "mandatory field entry-point not present"
        else Except.ok (rs.map rangeJsonInt) := by
  rw [validate_ranges, validateRangesGo_map rs true true]
  cases rs with
  | nil => rfl
  | cons r rest => rfl

theorem validateItemsGo_map (its : List DocItem)
    (hns : ∀ it ∈ its, endsWithAny it.ns namespace_ends = true) :
    ∀ (na ia sa : Bool),
      validateItemsGo (its.map itemJsonStr) na ia sa
        = Except.ok (its.map itemJsonInt,
            if its.isEmpty then na else false,
            if its.isEmpty then ia else false,
            if its.isEmpty then sa else false) := by
  induction its with
  | nil => intro na ia sa; rfl
  | cons it rest ih =>
    intro na ia sa
    have hit : endsWithAny it.ns namespace_ends = true :=
      hns it (List.mem_cons_self it rest)
    have hpairs : validateItemPairs
        [("namespace", JVal.str it.ns), ("identifier", JVal.str it.identifier),
         ("sid", JVal.str (pyStr it.sid))] na ia sa
        = Except.ok ([("namespace", JVal.str it.ns),
            ("identifier", JVal.str it.identifier), ("sid", JVal.int it.sid)],
            false, false, false) := by
      simp +decide [validateItemPairs, pyInt_pyStr, hit]
    have hrest : ∀ it2 ∈ rest, endsWithAny it2.ns namespace_ends = true :=
      fun it2 h2 => hns it2 (List.mem_cons_of_mem it h2)
    simp only [List.map_cons, itemJsonStr, validateItemsGo, hpairs, ih hrest, ite_self]
    rfl

theorem validate_items_map (its : List DocItem)
    (hns : ∀ it ∈ its, endsWithAny it.ns namespace_ends = true) :
    validate_items (its.map itemJsonStr)
      = if its.isEmpty then Except.error "mandatory field namespace not present"
        else Except.ok (its.map itemJsonInt) := by
  rw [validate_items, validateItemsGo_map its hns true true true]
  cases its with
  | nil => rfl
  | cons it rest => rfl

theorem validateDepsGo_map (ds : List (String × String)) :
    ∀ (mna ra : Bool),
      validateDepsGo (ds.map depJson) mna ra
        = Except.ok (if ds.isEmpty then mna else false,
            if ds.isEmpty then ra else false) := by
  induction ds with
  | nil => intro mna ra; rfl
  | cons p rest ih =>
    intro mna ra
    have hpairs : validateDepPairs
        [("module-name", JVal.str p.1), ("module-revision", JVal.str p.2)] mna ra
        = Except.ok (false, false) := by
      simp +decide [validateDepPairs]
    simp only [List.map_cons, depJson, validateDepsGo, hpairs, ih, ite_self]
    rfl

theorem validate_deps_map (ds : List (String × String)) :
    validate_dependency_revisions (ds.map depJson)
      = if ds.isEmpty then Except.error "mandatory field module-name not present"
        else Except.ok () := by
  rw [validate_dependency_revisions, validateDepsGo_map ds true true]
  cases ds with
  | nil => rfl
  | cons p rest => rfl

theorem normalizeEntries_ranges (rs : List (Int × Int)) :
    normalizeEntries (rs.map rangeJsonInt) = rs.map rangeJsonInt := by
  induction rs with
  | nil => rfl
  | cons r rest ih =>
    simp only [List.map_cons, rangeJsonInt, normalizeEntries, normalize_key_names,
      normalizeListVal, ih]
    rfl

theorem normalizeEntries_items (its : List DocItem) :
    normalizeEntries (its.map itemJsonInt) = its.map itemJsonInt := by
  induction its with
  | nil => rfl
  | cons it rest ih =>
    simp only [List.map_cons, itemJsonInt, normalizeEntries, normalize_key_names,
      normalizeListVal, ih]
    rfl

theorem normalizeEntries_deps (ds : List (String × String)) :
    normalizeEntries (ds.map depJson) = ds.map depJson := by
  induction ds with
  | nil => rfl
  | cons p rest ih =>
    simp only [List.map_cons, depJson, normalizeEntries, normalize_key_names,
      normalizeListVal, ih]
    rfl

theorem normalizeKeyFix1 : normalizeKey "module-name" = "module-name" := by decide

theorem normalizeKeyFix2 : normalizeKey "module-revision" = "module-revision" := by decide

theorem normalizeKeyFix3 : normalizeKey "sid-file-version" = "sid-file-version" := by decide

theorem normalizeKeyFix4 : normalizeKey "sid-file-status" = "sid-file-status" := by decide

theorem normalizeKeyFix5 : normalizeKey "description" = "description" := by decide

theorem normalizeKeyFix6 : normalizeKey "dependency-revision" = "dependency-revision" := by decide

theorem normalizeKeyFix7 : normalizeKey "assignment-range" = "assignment-range" := by decide

theorem normalizeKeyFix8 : normalizeKey "item" = "item" := by decide

/-- C7.  Round-trip: for a well-formed document, serializing (stringify
the uint64 fields, reorder canonically, wrap) succeeds, and parsing the
wire form (strip the wrapper, validate and coerce, normalize key names)
returns exactly the original internal content. -/
theorem sid_C7 (d : Doc) (h : WFDoc d = true) :
    preprocess_content (contentOf d) = some (wireOf d) ∧
    parseSidFile (wireOf d) = Except.ok (contentOf d) := by
  obtain ⟨mn, mr, ver0, st0, dsc0, deps0, rs, its⟩ := d
  simp only [WFDoc, Bool.and_eq_true] at h
  obtain ⟨⟨⟨⟨hst, hns0⟩, hr0⟩, hi0⟩, hd0⟩ := h
  rw [Bool.not_eq_true'] at hr0 hi0
  have hns : ∀ it ∈ its, endsWithAny it.ns namespace_ends = true :=
    fun it hit => List.all_eq_true.mp hns0 it hit
  rcases ver0 with _ | ver <;> rcases st0 with _ | st <;>
    rcases dsc0 with _ | dsc <;> rcases deps0 with _ | deps
  · constructor
    · simp +decide [preprocess_content, contentOf, wireOf, contentOfStr,
          convert_yang_uin64_values, jlookup, setKey, convertRangeList_map, convertItemList_map,
          reorder_per_yang_model, canonical_order]
    · simp +decide [parseSidFile, wireOf, contentOfStr, contentOf, strip_wrapper,
          validate_key_and_value, validateTopPairs, validate_ranges_map,
          validate_items_map its hns, validate_deps_map, hr0, hi0,
          normalize_key_names, normalizeListVal, normalizeKeyFix1, normalizeKeyFix2,
          normalizeKeyFix3, normalizeKeyFix4, normalizeKeyFix5, normalizeKeyFix6,
          normalizeKeyFix7, normalizeKeyFix8,
          normalizeEntries_ranges, normalizeEntries_items, normalizeEntries_deps]
  · have hd1 : (!deps.isEmpty) = true := hd0
    rw [Bool.not_eq_true'] at hd1
    constructor
    · simp +decide [preprocess_content, contentOf, wireOf, contentOfStr,
          convert_yang_uin64_values, jlookup, setKey, convertRangeList_map, convertItemList_map,
          reorder_per_yang_model, canonical_order]
    · simp +decide [parseSidFile, wireOf, contentOfStr, contentOf, strip_wrapper,
          validate_key_and_value, validateTopPairs, validate_ranges_map,
          validate_items_map its hns, validate_deps_map, hr0, hi0, hd1,
          normalize_key_names, normalizeListVal, normalizeKeyFix1, normalizeKeyFix2,
          normalizeKeyFix3, normalizeKeyFix4, normalizeKeyFix5, normalizeKeyFix6,
          normalizeKeyFix7, normalizeKeyFix8,
          normalizeEntries_ranges, normalizeEntries_items, normalizeEntries_deps]
  · constructor
    · simp +decide [preprocess_content, contentOf, wireOf, contentOfStr,
          convert_yang_uin64_values, jlookup, setKey, convertRangeList_map, convertItemList_map,
          reorder_per_yang_model, canonical_order]
    · simp +decide [parseSidFile, wireOf, contentOfStr, contentOf, strip_wrapper,
          validate_key_and_value, validateTopPairs, validate_ranges_map,
          validate_items_map its hns, validate_deps_map, hr0, hi0,
          normalize_key_names, normalizeListVal, normalizeKeyFix1, normalizeKeyFix2,
          normalizeKeyFix3, normalizeKeyFix4, normalizeKeyFix5, normalizeKeyFix6,
          normalizeKeyFix7, normalizeKeyFix8,
          normalizeEntries_ranges, normalizeEntries_items, normalizeEntries_deps]
  · have hd1 : (!deps.isEmpty) = true := hd0
    rw [Bool.not_eq_true'] at hd1
    constructor
    · simp +decide [preprocess_content, contentOf, wireOf, contentOfStr,
          convert_yang_uin64_values, jlookup, setKey, convertRangeList_map, convertItemList_map,
          reorder_per_yang_model, canonical_order]
    · simp +decide [parseSidFile, wireOf, contentOfStr, contentOf, strip_wrapper,
          validate_key_and_value, validateTopPairs, validate_ranges_map,
          validate_items_map its hns, validate_deps_map, hr0, hi0, hd1,
          normalize_key_names, normalizeListVal, normalizeKeyFix1, normalizeKeyFix2,
          normalizeKeyFix3, normalizeKeyFix4, normalizeKeyFix5, normalizeKeyFix6,
          normalizeKeyFix7, normalizeKeyFix8,
          normalizeEntries_ranges, normalizeEntries_items, normalizeEntries_deps]
  · have hst2 : endsWithAny st status_ends = true := hst
    constructor
    · simp +decide [preprocess_content, contentOf, wireOf, contentOfStr,
          convert_yang_uin64_values, jlookup, setKey, convertRangeList_map, convertItemList_map,
          reorder_per_yang_model, canonical_order]
    · simp +decide [parseSidFile, wireOf, contentOfStr, contentOf, strip_wrapper,
          validate_key_and_value, validateTopPairs, validate_ranges_map,
          validate_items_map its hns, validate_deps_map, hr0, hi0, hst2,
          normalize_key_names, normalizeListVal, normalizeKeyFix1, normalizeKeyFix2,
          normalizeKeyFix3, normalizeKeyFix4, normalizeKeyFix5, normalizeKeyFix6,
          normalizeKeyFix7, normalizeKeyFix8,
          normalizeEntries_ranges, normalizeEntries_items, normalizeEntries_deps]
  · have hst2 : endsWithAny st status_ends = true := hst
    have hd1 : (!deps.isEmpty) = true := hd0
    rw [Bool.not_eq_true'] at hd1
    constructor
    · simp +decide [preprocess_content, contentOf, wireOf, contentOfStr,
          convert_yang_uin64_values, jlookup, setKey, convertRangeList_map, convertItemList_map,
          reorder_per_yang_model, canonical_order]
    · simp +decide [parseSidFile, wireOf, contentOfStr, contentOf, strip_wrapper,
          validate_key_and_value, validateTopPairs, validate_ranges_map,
          validate_items_map its hns, validate_deps_map, hr0, hi0, hst2, hd1,
          normalize_key_names, normalizeListVal, normalizeKeyFix1, normalizeKeyFix2,
          normalizeKeyFix3, normalizeKeyFix4, normalizeKeyFix5, normalizeKeyFix6,
          normalizeKeyFix7, normalizeKeyFix8,
          normalizeEntries_ranges, normalizeEntries_items, normalizeEntries_deps]
  · have hst2 : endsWithAny st status_ends = true := hst
    constructor
    · simp +decide [preprocess_content, contentOf, wireOf, contentOfStr,
          convert_yang_uin64_values, jlookup, setKey, convertRangeList_map, convertItemList_map,
          reorder_per_yang_model, canonical_order]
    · simp +decide [parseSidFile, wireOf, contentOfStr, contentOf, strip_wrapper,
          validate_key_and_value, validateTopPairs, validate_ranges_map,
          validate_items_map its hns, validate_deps_map, hr0, hi0, hst2,
          normalize_key_names, normalizeListVal, normalizeKeyFix1, normalizeKeyFix2,
          normalizeKeyFix3, normalizeKeyFix4, normalizeKeyFix5, normalizeKeyFix6,
          normalizeKeyFix7, normalizeKeyFix8,
          normalizeEntries_ranges, normalizeEntries_items, normalizeEntries_deps]
  · have hst2 : endsWithAny st status_ends = true := hst
    have hd1 : (!deps.isEmpty) = true := hd0
    rw [Bool.not_eq_true'] at hd1
    constructor
    · simp +decide [preprocess_content, contentOf, wireOf, contentOfStr,
          convert_yang_uin64_values, jlookup, setKey, convertRangeList_map, convertItemList_map,
          reorder_per_yang_model, canonical_order]
    · simp +decide [parseSidFile, wireOf, contentOfStr, contentOf, strip_wrapper,
          validate_key_and_value, validateTopPairs, validate_ranges_map,
          validate_items_map its hns, validate_deps_map, hr0, hi0, hst2, hd1,
          normalize_key_names, normalizeListVal, normalizeKeyFix1, normalizeKeyFix2,
          normalizeKeyFix3, normalizeKeyFix4, normalizeKeyFix5, normalizeKeyFix6,
          normalizeKeyFix7, normalizeKeyFix8,
          normalizeEntries_ranges, normalizeEntries_items, normalizeEntries_deps]
  · constructor
    · simp +decide [preprocess_content, contentOf, wireOf, contentOfStr,
          convert_yang_uin64_values, jlookup, setKey, convertRangeList_map, convertItemList_map,
          reorder_per_yang_model, canonical_order]
    · simp +decide [parseSidFile, wireOf, contentOfStr, contentOf, strip_wrapper,
          validate_key_and_value, validateTopPairs, validate_ranges_map,
          validate_items_map its hns, validate_deps_map, hr0, hi0,
          normalize_key_names, normalizeListVal, normalizeKeyFix1, normalizeKeyFix2,
          normalizeKeyFix3, normalizeKeyFix4, normalizeKeyFix5, normalizeKeyFix6,
          normalizeKeyFix7, normalizeKeyFix8,
          normalizeEntries_ranges, normalizeEntries_items, normalizeEntries_deps]
  · have hd1 : (!deps.isEmpty) = true := hd0
    rw [Bool.not_eq_true'] at hd1
    constructor
    · simp +decide [preprocess_content, contentOf, wireOf, contentOfStr,
          convert_yang_uin64_values, jlookup, setKey, convertRangeList_map, convertItemList_map,
          reorder_per_yang_model, canonical_order]
    · simp +decide [parseSidFile, wireOf, contentOfStr, contentOf, strip_wrapper,
          validate_key_and_value, validateTopPairs, validate_ranges_map,
          validate_items_map its hns, validate_deps_map, hr0, hi0, hd1,
          normalize_key_names, normalizeListVal, normalizeKeyFix1, normalizeKeyFix2,
          normalizeKeyFix3, normalizeKeyFix4, normalizeKeyFix5, normalizeKeyFix6,
          normalizeKeyFix7, normalizeKeyFix8,
          normalizeEntries_ranges, normalizeEntries_items, normalizeEntries_deps]
  · constructor
    · simp +decide [preprocess_content, contentOf, wireOf, contentOfStr,
          convert_yang_uin64_values, jlookup, setKey, convertRangeList_map, convertItemList_map,
          reorder_per_yang_model, canonical_order]
    · simp +decide [parseSidFile, wireOf, contentOfStr, contentOf, strip_wrapper,
          validate_key_and_value, validateTopPairs, validate_ranges_map,
          validate_items_map its hns, validate_deps_map, hr0, hi0,
          normalize_key_names, normalizeListVal, normalizeKeyFix1, normalizeKeyFix2,
          normalizeKeyFix3, normalizeKeyFix4, normalizeKeyFix5, normalizeKeyFix6,
          normalizeKeyFix7, normalizeKeyFix8,
          normalizeEntries_ranges, normalizeEntries_items, normalizeEntries_deps]
  · have hd1 : (!deps.isEmpty) = true := hd0
    rw [Bool.not_eq_true'] at hd1
    constructor
    · simp +decide [preprocess_content, contentOf, wireOf, contentOfStr,
          convert_yang_uin64_values, jlookup, setKey, convertRangeList_map, convertItemList_map,
          reorder_per_yang_model, canonical_order]
    · simp +decide [parseSidFile, wireOf, contentOfStr, contentOf, strip_wrapper,
          validate_key_and_value, validateTopPairs, validate_ranges_map,
          validate_items_map its hns, validate_deps_map, hr0, hi0, hd1,
          normalize_key_names, normalizeListVal, normalizeKeyFix1, normalizeKeyFix2,
          normalizeKeyFix3, normalizeKeyFix4, normalizeKeyFix5, normalizeKeyFix6,
          normalizeKeyFix7, normalizeKeyFix8,
          normalizeEntries_ranges, normalizeEntries_items, normalizeEntries_deps]
  · have hst2 : endsWithAny st status_ends = true := hst
    constructor
    · simp +decide [preprocess_content, contentOf, wireOf, contentOfStr,
          convert_yang_uin64_values, jlookup, setKey, convertRangeList_map, convertItemList_map,
          reorder_per_yang_model, canonical_order]
    · simp +decide [parseSidFile, wireOf, contentOfStr, contentOf, strip_wrapper,
          validate_key_and_value, validateTopPairs, validate_ranges_map,
          validate_items_map its hns, validate_deps_map, hr0, hi0, hst2,
          normalize_key_names, normalizeListVal, normalizeKeyFix1, normalizeKeyFix2,
          normalizeKeyFix3, normalizeKeyFix4, normalizeKeyFix5, normalizeKeyFix6,
          normalizeKeyFix7, normalizeKeyFix8,
          normalizeEntries_ranges, normalizeEntries_items, normalizeEntries_deps]
  · have hst2 : endsWithAny st status_ends = true := hst
    have hd1 : (!deps.isEmpty) = true := hd0
    rw [Bool.not_eq_true'] at hd1
    constructor
    · simp +decide [preprocess_content, contentOf, wireOf, contentOfStr,
          convert_yang_uin64_values, jlookup, setKey, convertRangeList_map, convertItemList_map,
          reorder_per_yang_model, canonical_order]
    · simp +decide [parseSidFile, wireOf, contentOfStr, contentOf, strip_wrapper,
          validate_key_and_value, validateTopPairs, validate_ranges_map,
          validate_items_map its hns, validate_deps_map, hr0, hi0, hst2, hd1,
          normalize_key_names, normalizeListVal, normalizeKeyFix1, normalizeKeyFix2,
          normalizeKeyFix3, normalizeKeyFix4, normalizeKeyFix5, normalizeKeyFix6,
          normalizeKeyFix7, normalizeKeyFix8,
          normalizeEntries_ranges, normalizeEntries_items, normalizeEntries_deps]
  · have hst2 : endsWithAny st status_ends = true := hst
    constructor
    · simp +decide [preprocess_content, contentOf, wireOf, contentOfStr,
          convert_yang_uin64_values, jlookup, setKey, convertRangeList_map, convertItemList_map,
          reorder_per_yang_model, canonical_order]
    · simp +decide [parseSidFile, wireOf, contentOfStr, contentOf, strip_wrapper,
          validate_key_and_value, validateTopPairs, validate_ranges_map,
          validate_items_map its hns, validate_deps_map, hr0, hi0, hst2,
          normalize_key_names, normalizeListVal, normalizeKeyFix1, normalizeKeyFix2,
          normalizeKeyFix3, normalizeKeyFix4, normalizeKeyFix5, normalizeKeyFix6,
          normalizeKeyFix7, normalizeKeyFix8,
          normalizeEntries_ranges, normalizeEntries_items, normalizeEntries_deps]
  · have hst2 : endsWithAny st status_ends = true := hst
    have hd1 : (!deps.isEmpty) = true := hd0
    rw [Bool.not_eq_true'] at hd1
    constructor
    · simp +decide [preprocess_content, contentOf, wireOf, contentOfStr,
          convert_yang_uin64_values, jlookup, setKey, convertRangeList_map, convertItemList_map,
          reorder_per_yang_model, canonical_order]
    · simp +decide [parseSidFile, wireOf, contentOfStr, contentOf, strip_wrapper,
          validate_key_and_value, validateTopPairs, validate_ranges_map,
          validate_items_map its hns, validate_deps_map, hr0, hi0, hst2, hd1,
          normalize_key_names, normalizeListVal, normalizeKeyFix1, normalizeKeyFix2,
          normalizeKeyFix3, normalizeKeyFix4, normalizeKeyFix5, normalizeKeyFix6,
          normalizeKeyFix7, normalizeKeyFix8,
          normalizeEntries_ranges, normalizeEntries_items, normalizeEntries_deps]

/-- Closed instance of C7: a concrete well-formed document with every
optional field present round-trips through serialization and parsing. -/
theorem sid_C7_witness :
    preprocess_content (contentOf ⟨"m", "2024-01-01", some 1, some "published",
      some "d", some [("dep", "2023-01-01")], [(100, 5)], [⟨"module", "m", 100⟩]⟩)
      = some (wireOf ⟨"m", "2024-01-01", some 1, some "published",
        some "d", some [("dep", "2023-01-01")], [(100, 5)], [⟨"module", "m", 100⟩]⟩) ∧
    parseSidFile (wireOf ⟨"m", "2024-01-01", some 1, some "published",
      some "d", some [("dep", "2023-01-01")], [(100, 5)], [⟨"module", "m", 100⟩]⟩)
      = Except.ok (contentOf ⟨"m", "2024-01-01", some 1, some "published",
        some "d", some [("dep", "2023-01-01")], [(100, 5)], [⟨"module", "m", 100⟩]⟩) :=
  sid_C7 ⟨"m", "2024-01-01", some 1, some "published", some "d",
    some [("dep", "2023-01-01")], [(100, 5)], [⟨"module", "m", 100⟩]⟩ (by decide)

theorem validateItemPairs_ns :
    ∀ (ps : List (String × JVal)) (na ia sa : Bool)
      (out : List (String × JVal) × Bool × Bool × Bool),
      validateItemPairs ps na ia sa = Except.ok out →
      ∀ q ∈ ps, (q.1 = "namespace" ∨ q.1 = "ietf-sid-file:namespace") →
        ∃ s, q.2 = JVal.str s ∧ endsWithAny s namespace_ends = true := by
  intro ps
  induction ps with
  | nil => intro na ia sa out h q hq hkey; exact absurd hq (List.not_mem_nil q)
  | cons p rest ih =>
    intro na ia sa out h q hq hkey
    obtain ⟨k, v⟩ := p
    by_cases h1 : (k = "namespace" ∨ k = "ietf-sid-file:namespace")
    · cases v with
      | str s =>
        simp only [validateItemPairs, if_pos h1] at h
        by_cases h2 : endsWithAny s namespace_ends = true
        · rw [if_pos h2] at h
          cases hrec : validateItemPairs rest false ia sa with
          | ok out2 =>
            rcases List.mem_cons.mp hq with hqe | hq2
            · rw [hqe]; exact ⟨s, rfl, h2⟩
            · exact ih false ia sa out2 hrec q hq2 hkey
          | error e => simp only [hrec] at h; exact Except.noConfusion h
        · rw [if_neg h2] at h; exact Except.noConfusion h
      | int n => simp only [validateItemPairs, if_pos h1] at h; exact Except.noConfusion h
      | arr a => simp only [validateItemPairs, if_pos h1] at h; exact Except.noConfusion h
      | obj o => simp only [validateItemPairs, if_pos h1] at h; exact Except.noConfusion h
    · by_cases h2 : (k = "identifier" ∨ k = "ietf-sid-file:identifier")
      · cases v with
        | str s =>
          simp only [validateItemPairs, if_neg h1, if_pos h2] at h
          cases hrec : validateItemPairs rest na false sa with
          | ok out2 =>
            rcases List.mem_cons.mp hq with hqe | hq2
            · rw [hqe] at hkey; exact absurd hkey h1
            · exact ih na false sa out2 hrec q hq2 hkey
          | error e => simp only [hrec] at h; exact Except.noConfusion h
        | int n =>
          simp only [validateItemPairs, if_neg h1, if_pos h2] at h
          exact Except.noConfusion h
        | arr a =>
          simp only [validateItemPairs, if_neg h1, if_pos h2] at h
          exact Except.noConfusion h
        | obj o =>
          simp only [validateItemPairs, if_neg h1, if_pos h2] at h
          exact Except.noConfusion h
      · by_cases h3 : (k = "sid" ∨ k = "ietf-sid-file:sid")
        · cases v with
          | str s =>
            simp only [validateItemPairs, if_neg h1, if_neg h2, if_pos h3] at h
            cases hpi : pyInt s with
            | some n =>
              simp only [hpi] at h
              cases hrec : validateItemPairs rest na ia false with
              | ok out2 =>
                rcases List.mem_cons.mp hq with hqe | hq2
                · rw [hqe] at hkey; exact absurd hkey h1
                · exact ih na ia false out2 hrec q hq2 hkey
              | error e => simp only [hrec] at h; exact Except.noConfusion h
            | none => simp only [hpi] at h; exact Except.noConfusion h
          | int n =>
            simp only [validateItemPairs, if_neg h1, if_neg h2, if_pos h3] at h
            exact Except.noConfusion h
          | arr a =>
            simp only [validateItemPairs, if_neg h1, if_neg h2, if_pos h3] at h
            exact Except.noConfusion h
          | obj o =>
            simp only [validateItemPairs, if_neg h1, if_neg h2, if_pos h3] at h
            exact Except.noConfusion h
        · simp only [validateItemPairs, if_neg h1, if_neg h2, if_neg h3] at h
          exact Except.noConfusion h

theorem validateItemsGo_ns :
    ∀ (xs : List JVal) (na ia sa : Bool) (out : List JVal × Bool × Bool × Bool),
      validateItemsGo xs na ia sa = Except.ok out →
      ∀ e ∈ xs, ∀ kvs, e = JVal.obj kvs →
        ∀ q ∈ kvs, (q.1 = "namespace" ∨ q.1 = "ietf-sid-file:namespace") →
          ∃ s, q.2 = JVal.str s ∧ endsWithAny s namespace_ends = true := by
  intro xs
  induction xs with
  | nil => intro na ia sa out h e he; exact absurd he (List.not_mem_nil e)
  | cons x rest ih =>
    intro na ia sa out h e he kvs hekvs q hq hkey
    cases x with
    | obj kvs0 =>
      simp only [validateItemsGo] at h
      cases hp : validateItemPairs kvs0 na ia sa with
      | ok out1 =>
        obtain ⟨kvs2, f⟩ := out1
        simp only [hp] at h
        cases hrec : validateItemsGo rest f.1 f.2.1 f.2.2 with
        | ok out2 =>
          rcases List.mem_cons.mp he with hee | he2
          · have hkv : kvs0 = kvs := by
              rw [hee] at hekvs
              injection hekvs
            rw [← hkv] at hq
            exact validateItemPairs_ns kvs0 na ia sa (kvs2, f) hp q hq hkey
          · exact ih f.1 f.2.1 f.2.2 out2 hrec e he2 kvs hekvs q hq hkey
        | error e2 => simp only [hrec] at h; exact Except.noConfusion h
      | error e2 => simp only [hp] at h; exact Except.noConfusion h
    | str s => exact Except.noConfusion h
    | int n => exact Except.noConfusion h
    | arr a => exact Except.noConfusion h

theorem validate_items_ns (xs : List JVal) (out : List JVal)
    (h : validate_items xs = Except.ok out) :
    ∀ e ∈ xs, ∀ kvs, e = JVal.obj kvs →
      ∀ q ∈ kvs, (q.1 = "namespace" ∨ q.1 = "ietf-sid-file:namespace") →
        ∃ s, q.2 = JVal.str s ∧ endsWithAny s namespace_ends = true := by
  cases hgo : validateItemsGo xs true true true with
  | ok out1 => exact validateItemsGo_ns xs true true true out1 hgo
  | error e => rw [validate_items] at h; simp only [hgo] at h; exact Except.noConfusion h

theorem validateTopPairs_item :
    ∀ (c : List (String × JVal)) (ara mna mra ita : Bool)
      (out : List (String × JVal) × Bool × Bool × Bool × Bool),
      validateTopPairs c ara mna mra ita = Except.ok out →
      ∀ p ∈ c, (p.1 = "item" ∨ p.1 = "ietf-sid-file:item") →
        ∃ xs out2, p.2 = JVal.arr xs ∧ validate_items xs = Except.ok out2 := by
  intro c
  induction c with
  | nil => intro ara mna mra ita out h p hp; exact absurd hp (List.not_mem_nil p)
  | cons q rest ih =>
    intro ara mna mra ita out h p hp hkey
    obtain ⟨k, v⟩ := q
    by_cases h1 : (k = "assignment-range" ∨ k = "ietf-sid-file:assignment-range")
    · cases v with
      | arr rs =>
        simp only [validateTopPairs, if_pos h1] at h
        cases hvr : validate_ranges rs with
        | ok rs2 =>
          simp only [hvr] at h
          cases hrec : validateTopPairs rest false mna mra ita with
          | ok out2 =>
            rcases List.mem_cons.mp hp with hpe | hp2
            · rw [hpe] at hkey
              rcases h1 with rfl | rfl <;> rcases hkey with hk | hk <;> simp at hk
            · exact ih false mna mra ita out2 hrec p hp2 hkey
          | error e => simp only [hrec] at h; exact Except.noConfusion h
        | error e => simp only [hvr] at h; exact Except.noConfusion h
      | str s => simp only [validateTopPairs, if_pos h1] at h; exact Except.noConfusion h
      | int n => simp only [validateTopPairs, if_pos h1] at h; exact Except.noConfusion h
      | obj o => simp only [validateTopPairs, if_pos h1] at h; exact Except.noConfusion h
    · by_cases h2 : (k = "module-name" ∨ k = "ietf-sid-file:module-name")
      · simp only [validateTopPairs, if_neg h1, if_pos h2] at h
        cases hrec : validateTopPairs rest ara false mra ita with
        | ok out2 =>
          rcases List.mem_cons.mp hp with hpe | hp2
          · rw [hpe] at hkey
            rcases h2 with rfl | rfl <;> rcases hkey with hk | hk <;> simp at hk
          · exact ih ara false mra ita out2 hrec p hp2 hkey
        | error e => simp only [hrec] at h; exact Except.noConfusion h
      · by_cases h3 : (k = "module-revision" ∨ k = "ietf-sid-file:module-revision")
        · simp only [validateTopPairs, if_neg h1, if_neg h2, if_pos h3] at h
          cases hrec : validateTopPairs rest ara mna false ita with
          | ok out2 =>
            rcases List.mem_cons.mp hp with hpe | hp2
            · rw [hpe] at hkey
              rcases h3 with rfl | rfl <;> rcases hkey with hk | hk <;> simp at hk
            · exact ih ara mna false ita out2 hrec p hp2 hkey
          | error e => simp only [hrec] at h; exact Except.noConfusion h
        · by_cases h4 : (k = "description" ∨ k = "ietf-sid-file:description")
          · cases v with
            | str s =>
              simp only [validateTopPairs, if_neg h1, if_neg h2, if_neg h3,
                if_pos h4] at h
              cases hrec : validateTopPairs rest ara mna mra ita with
              | ok out2 =>
                rcases List.mem_cons.mp hp with hpe | hp2
                · rw [hpe] at hkey
                  rcases h4 with rfl | rfl <;> rcases hkey with hk | hk <;> simp at hk
                · exact ih ara mna mra ita out2 hrec p hp2 hkey
              | error e => simp only [hrec] at h; exact Except.noConfusion h
            | int n =>
              simp only [validateTopPairs, if_neg h1, if_neg h2, if_neg h3,
                if_pos h4] at h
              exact Except.noConfusion h
            | arr a =>
              simp only [validateTopPairs, if_neg h1, if_neg h2, if_neg h3,
                if_pos h4] at h
              exact Except.noConfusion h
            | obj o =>
              simp only [validateTopPairs, if_neg h1, if_neg h2, if_neg h3,
                if_pos h4] at h
              exact Except.noConfusion h
          · by_cases h5 : (k = "sid-file-version" ∨ k = "ietf-sid-file:sid-file-version")
            · cases v with
              | int n =>
                simp only [validateTopPairs, if_neg h1, if_neg h2, if_neg h3,
                  if_neg h4, if_pos h5] at h
                cases hrec : validateTopPairs rest ara mna mra ita with
                | ok out2 =>
                  rcases List.mem_cons.mp hp with hpe | hp2
                  · rw [hpe] at hkey
                    rcases h5 with rfl | rfl <;> rcases hkey with hk | hk <;> simp at hk
                  · exact ih ara mna mra ita out2 hrec p hp2 hkey
                | error e => simp only [hrec] at h; exact Except.noConfusion h
              | str s =>
                simp only [validateTopPairs, if_neg h1, if_neg h2, if_neg h3,
                  if_neg h4, if_pos h5] at h
                exact Except.noConfusion h
              | arr a =>
                simp only [validateTopPairs, if_neg h1, if_neg h2, if_neg h3,
                  if_neg h4, if_pos h5] at h
                exact Except.noConfusion h
              | obj o =>
                simp only [validateTopPairs, if_neg h1, if_neg h2, if_neg h3,
                  if_neg h4, if_pos h5] at h
                exact Except.noConfusion h
            · by_cases h6 : (k = "sid-file-status" ∨ k = "ietf-sid-file:sid-file-status")
              · cases v with
                | str s =>
                  simp only [validateTopPairs, if_neg h1, if_neg h2, if_neg h3,
                    if_neg h4, if_neg h5, if_pos h6] at h
                  by_cases hs : endsWithAny s status_ends = true
                  · rw [if_pos hs] at h
                    cases hrec : validateTopPairs rest ara mna mra ita with
                    | ok out2 =>
                      rcases List.mem_cons.mp hp with hpe | hp2
                      · rw [hpe] at hkey
                        rcases h6 with rfl | rfl <;> rcases hkey with hk | hk <;> simp at hk
                      · exact ih ara mna mra ita out2 hrec p hp2 hkey
                    | error e => simp only [hrec] at h; exact Except.noConfusion h
                  · rw [if_neg hs] at h; exact Except.noConfusion h
                | int n =>
                  simp only [validateTopPairs, if_neg h1, if_neg h2, if_neg h3,
                    if_neg h4, if_neg h5, if_pos h6] at h
                  exact Except.noConfusion h
                | arr a =>
                  simp only [validateTopPairs, if_neg h1, if_neg h2, if_neg h3,
                    if_neg h4, if_neg h5, if_pos h6] at h
                  exact Except.noConfusion h
                | obj o =>
                  simp only [validateTopPairs, if_neg h1, if_neg h2, if_neg h3,
                    if_neg h4, if_neg h5, if_pos h6] at h
                  exact Except.noConfusion h
              · by_cases h7 : (k = "dependency-revision" ∨ k = "ietf-sid-file:dependency-revision")
                · cases v with
                  | arr ds =>
                    simp only [validateTopPairs, if_neg h1, if_neg h2, if_neg h3,
                      if_neg h4, if_neg h5, if_neg h6, if_pos h7] at h
                    cases hvd : validate_dependency_revisions ds with
                    | ok u =>
                      simp only [hvd] at h
                      cases hrec : validateTopPairs rest ara mna mra ita with
                      | ok out2 =>
                        rcases List.mem_cons.mp hp with hpe | hp2
                        · rw [hpe] at hkey
                          rcases h7 with rfl | rfl <;> rcases hkey with hk | hk <;> simp at hk
                        · exact ih ara mna mra ita out2 hrec p hp2 hkey
                      | error e => simp only [hrec] at h; exact Except.noConfusion h
                    | error e => simp only [hvd] at h; exact Except.noConfusion h
                  | str s =>
                    simp only [validateTopPairs, if_neg h1, if_neg h2, if_neg h3,
                      if_neg h4, if_neg h5, if_neg h6, if_pos h7] at h
                    exact Except.noConfusion h
                  | int n =>
                    simp only [validateTopPairs, if_neg h1, if_neg h2, if_neg h3,
                      if_neg h4, if_neg h5, if_neg h6, if_pos h7] at h
                    exact Except.noConfusion h
                  | obj o =>
                    simp only [validateTopPairs, if_neg h1, if_neg h2, if_neg h3,
                      if_neg h4, if_neg h5, if_neg h6, if_pos h7] at h
                    exact Except.noConfusion h
                · by_cases h8 : (k = "item" ∨ k = "ietf-sid-file:item")
                  · cases v with
                    | arr xs =>
                      simp only [validateTopPairs, if_neg h1, if_neg h2, if_neg h3,
                        if_neg h4, if_neg h5, if_neg h6, if_neg h7, if_pos h8] at h
                      cases hvi : validate_items xs with
                      | ok xs2 =>
                        simp only [hvi] at h
                        cases hrec : validateTopPairs rest ara mna mra false with
                        | ok out2 =>
                          rcases List.mem_cons.mp hp with hpe | hp2
                          · rw [hpe]; exact ⟨xs, xs2, rfl, hvi⟩
                          · exact ih ara mna mra false out2 hrec p hp2 hkey
                        | error e => simp only [hrec] at h; exact Except.noConfusion h
                      | error e => simp only [hvi] at h; exact Except.noConfusion h
                    | str s =>
                      simp only [validateTopPairs, if_neg h1, if_neg h2, if_neg h3,
                        if_neg h4, if_neg h5, if_neg h6, if_neg h7, if_pos h8] at h
                      exact Except.noConfusion h
                    | int n =>
                      simp only [validateTopPairs, if_neg h1, if_neg h2, if_neg h3,
                        if_neg h4, if_neg h5, if_neg h6, if_neg h7, if_pos h8] at h
                      exact Except.noConfusion h
                    | obj o =>
                      simp only [validateTopPairs, if_neg h1, if_neg h2, if_neg h3,
                        if_neg h4, if_neg h5, if_neg h6, if_neg h7, if_pos h8] at h
                      exact Except.noConfusion h
                  · simp only [validateTopPairs, if_neg h1, if_neg h2, if_neg h3,
                      if_neg h4, if_neg h5, if_neg h6, if_neg h7, if_neg h8] at h
                    exact Except.noConfusion h

/-- The claim of C9 as stated fails: validate_items checks namespace
values with str.endswith(namespace_ends), not equality, so the namespace
x-data, which is not one of the four allowed words, passes the whole
top-level validation. -/
theorem sid_C9_counterexample :
    (∃ out, validate_key_and_value
        [("module-name", JVal.str "m"), ("module-revision", JVal.str "r"),
         ("assignment-range", JVal.arr [JVal.obj
           [("entry-point", JVal.str "100"), ("size", JVal.str "5")]]),
         ("item", JVal.arr [JVal.obj
           [("namespace", JVal.str "x-data"), ("identifier", JVal.str "i"),
            ("sid", JVal.str "1")]])]
      = Except.ok out)
    ∧ ¬ ("x-data" ∈ ["module", "identity", "feature", "data"]) :=
  ⟨⟨_, rfl⟩, by decide⟩

/-- C9 (amended).  Namespace restriction as the code implements it: in
any document accepted by validate_key_and_value, every namespace value of
every item is a string that ends with one of module, identity, feature,
data; equivalently a document with an item namespace failing that
endswith test is rejected. -/
theorem sid_C9 (c out : List (String × JVal))
    (h : validate_key_and_value c = Except.ok out) :
    ∀ p ∈ c, (p.1 = "item" ∨ p.1 = "ietf-sid-file:item") →
      ∃ xs, p.2 = JVal.arr xs ∧
        ∀ e ∈ xs, ∀ kvs, e = JVal.obj kvs →
          ∀ q ∈ kvs, (q.1 = "namespace" ∨ q.1 = "ietf-sid-file:namespace") →
            ∃ s, q.2 = JVal.str s ∧ endsWithAny s namespace_ends = true := by
  cases hgo : validateTopPairs c true true true true with
  | ok out1 =>
    intro p hp hkey
    obtain ⟨xs, out2, hval, hvi⟩ :=
      validateTopPairs_item c true true true true out1 hgo p hp hkey
    exact ⟨xs, hval, fun e he kvs hekvs q hq hkey2 =>
      validate_items_ns xs out2 hvi e he kvs hekvs q hq hkey2⟩
  | error e =>
    rw [validate_key_and_value] at h
    simp only [hgo] at h
    exact Except.noConfusion h

/-- Closed instance of C9: in a concrete accepted document, the item
list under the item key consists of objects whose namespace values all
end with one of the four namespace words. -/
theorem sid_C9_witness :
    ∃ xs, JVal.arr [JVal.obj
        [("namespace", JVal.str "data"), ("identifier", JVal.str "i"),
         ("sid", JVal.str "7")]] = JVal.arr xs ∧
      ∀ e ∈ xs, ∀ kvs, e = JVal.obj kvs →
        ∀ q ∈ kvs, (q.1 = "namespace" ∨ q.1 = "ietf-sid-file:namespace") →
          ∃ s, q.2 = JVal.str s ∧ endsWithAny s namespace_ends = true :=
  sid_C9 [("module-name", JVal.str "m"), ("module-revision", JVal.str "r"),
      ("assignment-range", JVal.arr [JVal.obj
        [("entry-point", JVal.str "100"), ("size", JVal.str "5")]]),
      ("item", JVal.arr [JVal.obj
        [("namespace", JVal.str "data"), ("identifier", JVal.str "i"),
         ("sid", JVal.str "7")]])]
    [("module-name", JVal.str "m"), ("module-revision", JVal.str "r"),
      ("assignment-range", JVal.arr [JVal.obj
        [("entry-point", JVal.int 100), ("size", JVal.int 5)]]),
      ("item", JVal.arr [JVal.obj
        [("namespace", JVal.str "data"), ("identifier", JVal.str "i"),
         ("sid", JVal.int 7)]])]
    rfl
    ("item", JVal.arr [JVal.obj
      [("namespace", JVal.str "data"), ("identifier", JVal.str "i"),
       ("sid", JVal.str "7")]])
    (List.mem_cons_of_mem _ (List.mem_cons_of_mem _ (List.mem_cons_of_mem _
      (List.mem_cons_self _ _))))
    (Or.inl rfl)

/-- C10.  The sid coercion int(item[sid]) accepts every decimal string,
with no sign or 64-bit bound check: pyInt inverts str() on every integer,
the string -1 in particular is accepted and an item carrying it passes
validate_items with internal value -1; since -1 is the unassigned
sentinel, such an item counts as unassigned and the allocator hands it a
fresh id from the ranges instead of keeping its stored value. -/
theorem sid_C10 :
    (∀ n : Int, pyInt (pyStr n) = some n)
    ∧ pyInt "-1" = some (-1)
    ∧ validate_items [JVal.obj [("namespace", JVal.str "module"),
        ("identifier", JVal.str "m"), ("sid", JVal.str "-1")]]
      = Except.ok [JVal.obj [("namespace", JVal.str "module"),
        ("identifier", JVal.str "m"), ("sid", JVal.int (-1))]]
    ∧ countUnassigned [⟨"module", "m", -1, 'o'⟩] = 1
    ∧ assign_sid ⟨[(100, 5)], [⟨"module", "m", -1, 'o'⟩], true⟩
        = Except.ok ⟨[(100, 5)], [⟨"module", "m", 100, 'o'⟩], true⟩ := by
  refine ⟨pyInt_pyStr, rfl, rfl, by decide, ?_⟩
  have hgen : gen_sids [(100, 5)] [] = [100, 101, 102, 103, 104] := by
    show genSidsSweep (List.insertionSort rangeLe [(100, 5)]) [] = _
    rw [show List.insertionSort rangeLe [(100, 5)] = [(100, 5)] from rfl]
    show (genRange 100 (100 + 5) []).1
        ++ genSidsSweep [] (genRange 100 (100 + 5) []).2 = _
    have h2 : genRange 100 (100 + 5) [] = ([100, 101, 102, 103, 104], []) := by
      simp +decide [genRange, intRange]
    rw [h2]
    rfl
  unfold assign_sid
  have hne : ¬ ((⟨[(100, 5)], [⟨"module", "m", -1, 'o'⟩], true⟩ : SidState).items.filter
      (fun it => decide (it.sid = -1))).isEmpty = true := by decide
  rw [if_neg hne]
  rw [show (⟨[(100, 5)], [⟨"module", "m", -1, 'o'⟩], true⟩ : SidState).items
      = [(⟨"module", "m", -1, 'o'⟩ : SidItem)] from rfl]
  rw [show (⟨[(100, 5)], [⟨"module", "m", -1, 'o'⟩], true⟩ : SidState).ranges
      = [((100 : Int), (5 : Int))] from rfl]
  rw [show used_sids ⟨[(100, 5)], [⟨"module", "m", -1, 'o'⟩], true⟩ = ([] : List Int) from rfl]
  rw [hgen]
  rfl
